import Mathlib

set_option autoImplicit false

/-!
Verification development for the coredns-dockerdiscovery plugin.

Shallow embedding of the plugin's pure core:
* the container registry and its lookup (docker.go: ContainerInfo,
  containerInfoByDomain, updateContainerInfo, removeContainerInfo),
* the DNS answer engine (docker.go: ServeDNS, getAnswer, getCNAMEAnswer),
* the Cloudflare DNS sync engine (cloudflare.go: CloudflareSyncer.SyncDomains,
  RemoveDomains, findZoneForDomain, upsertRecord, deleteRecord),
* the tunnel route sync engine (tunnel.go: TunnelSyncer.AddRoutes, RemoveRoutes,
  upsertTunnelDNS, deleteTunnelDNS, findZoneForDomain).

Modelling conventions:
* Go maps are modelled as association lists (map iteration becomes list order).
* net.IP values are modelled as `Option String` (Go nil = none).
* The remote Cloudflare provider (records and tunnel ingress) is modelled as an
  explicit state `CFState` that additionally records every API call in an
  operation log `CFOp`, so that claims about which remote calls are made can be
  stated.  Reads and writes are the happy path (no provider errors): the code's
  per-domain error recovery only skips work, it never adds calls.
* Docker API access inside updateContainerInfo (resolver execution and
  getContainerAddress, which inspects other containers over the API) is
  abstracted by passing the resolvers' results and the address-resolution
  results as parameters; the registry logic itself is translated verbatim.
-/

/-! ## Registry model (docker.go) -/

/-- docker.go ContainerInfo: an entry of the registry.  `address`/`address6`
model the (nilable) net.IP fields; domains are stored without trailing dot. -/
structure ContainerInfo where
  containerID : String
  address : Option String
  address6 : Option String
  domains : List String
  cnameDomains : List String
deriving DecidableEq

/-- docker.go ContainerInfoMap (Go map keyed by container ID), as an
association list; list order models map iteration order. -/
abbrev ContainerInfoMap := List (String × ContainerInfo)

/-- docker.go DomainLookupResult. -/
structure DomainLookupResult where
  containerInfo : ContainerInfo
  isCNAME : Bool
deriving DecidableEq

/-- docker.go containerInfoByDomain: scan the entries; within an entry the
plain `domains` are checked before `cnameDomains`; a domain d matches when
d ++ "." equals the request name (byte-for-byte). -/
def containerInfoByDomain : ContainerInfoMap → String → Option DomainLookupResult
  | [], _ => none
  | (_, ci) :: rest, requestName =>
    if ci.domains.any (fun d => d ++ "." == requestName) then
      some { containerInfo := ci, isCNAME := false }
    else if ci.cnameDomains.any (fun d => d ++ "." == requestName) then
      some { containerInfo := ci, isCNAME := true }
    else containerInfoByDomain rest requestName

/-- A DNS resource record as built by getAnswer / getCNAMEAnswer.  The IP of an
A/AAAA record is `Option String` because the Go code copies a possibly-nil
net.IP into the record. -/
inductive RR where
  | A (name : String) (ip : Option String) (ttl : Nat)
  | AAAA (name : String) (ip : Option String) (ttl : Nat)
  | CNAME (name : String) (target : String) (ttl : Nat)
deriving DecidableEq

/-- docker.go getCNAMEAnswer: one CNAME record, target gets a trailing dot. -/
def getCNAMEAnswer (zone target : String) (ttl : Nat) : List RR :=
  let target := if target.endsWith "." then target else target ++ "."
  [RR.CNAME zone target ttl]

/-- docker.go getAnswer: one A (or AAAA when v6) record per given IP. -/
def getAnswer (zone : String) (ips : List (Option String)) (ttl : Nat) (v6 : Bool) : List RR :=
  ips.map (fun ip => if v6 then RR.AAAA zone ip ttl else RR.A zone ip ttl)

/-- DNS query types handled by ServeDNS. -/
inductive QType where
  | A | AAAA | CNAME | OTHER
deriving DecidableEq

/-- The DockerDiscovery plugin state consulted by ServeDNS (docker.go).
`traefikCNAME = ""` models the unset CNAME target; `traefikA = none` the unset
A target. -/
structure DockerDiscovery where
  containerInfoMap : ContainerInfoMap
  ttl : Nat
  traefikCNAME : String
  traefikA : Option String
deriving DecidableEq

/-- Outcome of ServeDNS: either delegation to the next handler
(plugin.NextOrFailure) or a written reply with its authoritative flag, rcode
and answer section. -/
inductive ServeResult where
  | next
  | written (authoritative : Bool) (rcode : Nat) (answers : List RR)
deriving DecidableEq

/-- dns.RcodeSuccess (NOERROR). -/
def rcodeSuccess : Nat := 0

/-- The final block of ServeDNS: empty answers delegate to the next handler,
otherwise an authoritative NOERROR reply carrying the answers is written. -/
def finishAnswers (answers : List RR) : ServeResult :=
  if answers.isEmpty then ServeResult.next
  else ServeResult.written true rcodeSuccess answers

/-- docker.go ServeDNS, as a function of the query type and literal query name.
The AAAA branch contains the early NODATA return (authoritative, NOERROR,
empty answer section) for known non-redirect names with an IPv4 address but
no IPv6 address. -/
def serveDNS (dd : DockerDiscovery) (qtype : QType) (qname : String) : ServeResult :=
  match qtype with
  | QType.A =>
    match containerInfoByDomain dd.containerInfoMap qname with
    | some result =>
      if result.isCNAME then
        if dd.traefikCNAME != "" then
          finishAnswers (getCNAMEAnswer qname dd.traefikCNAME dd.ttl)
        else
          match dd.traefikA with
          | some ip => finishAnswers (getAnswer qname [some ip] dd.ttl false)
          | none => finishAnswers []
      else finishAnswers (getAnswer qname [result.containerInfo.address] dd.ttl false)
    | none => finishAnswers []
  | QType.AAAA =>
    match containerInfoByDomain dd.containerInfoMap qname with
    | some result =>
      if result.isCNAME then
        if dd.traefikCNAME != "" then
          finishAnswers (getCNAMEAnswer qname dd.traefikCNAME dd.ttl)
        else finishAnswers []
      else if result.containerInfo.address6.isSome then
        finishAnswers (getAnswer qname [result.containerInfo.address6] dd.ttl true)
      else if result.containerInfo.address.isSome then
        ServeResult.written true rcodeSuccess []
      else finishAnswers []
    | none => finishAnswers []
  | QType.CNAME =>
    match containerInfoByDomain dd.containerInfoMap qname with
    | some result =>
      if result.isCNAME && dd.traefikCNAME != "" then
        finishAnswers (getCNAMEAnswer qname dd.traefikCNAME dd.ttl)
      else finishAnswers []
    | none => finishAnswers []
  | QType.OTHER => finishAnswers []

/-- docker.go resolveDomainsByContainer: concatenate every configured plain
resolver's domains; the traefik label resolver's domains are kept separately
(`none` models a nil traefikResolver).  Resolver execution is abstracted by
its result lists. -/
def resolveDomainsByContainer (resolverResults : List (List String))
    (traefikResult : Option (List String)) : List String × List String :=
  (resolverResults.foldl (fun acc d => acc ++ d) [],
   match traefikResult with
   | some d => d
   | none => [])

/-- Go `delete(m, id)` on the registry map. -/
def eraseEntry (m : ContainerInfoMap) (containerID : String) : ContainerInfoMap :=
  m.filter (fun p => p.1 != containerID)

/-- Registry lookup by container ID (Go `m[id]`). -/
def lookupEntry (m : ContainerInfoMap) (containerID : String) : Option ContainerInfo :=
  (m.find? (fun p => p.1 == containerID)).map (fun p => p.2)

/-- docker.go updateContainerInfo: drop any previous entry, resolve all domains
first, then resolve the IPv4 address (`containerAddress`); IPv6 resolution
(`v6Result`) is consulted only when the IPv4 address is non-nil; with no IPv4
address the plain domains are dropped; the entry is stored only when some
plain or CNAME domain remains. -/
def updateContainerInfo (m : ContainerInfoMap) (containerID : String)
    (resolverResults : List (List String)) (traefikResult : Option (List String))
    (containerAddress : Option String) (v6Result : Option String) : ContainerInfoMap :=
  let m1 := eraseEntry m containerID
  let resolved := resolveDomainsByContainer resolverResults traefikResult
  let cnameDomains := resolved.2
  let containerAddress6 : Option String :=
    match containerAddress with
    | some _ => v6Result
    | none => none
  let domains :=
    if containerAddress == none && resolved.1.length > 0 then [] else resolved.1
  if domains.length > 0 || cnameDomains.length > 0 then
    (containerID,
      { containerID := containerID
        address := containerAddress
        address6 := containerAddress6
        domains := domains
        cnameDomains := cnameDomains }) :: m1
  else m1

/-- docker.go removeContainerInfo: delete the entry outright (the asynchronous
Cloudflare removal it dispatches is modelled separately by RemoveDomains). -/
def removeContainerInfo (m : ContainerInfoMap) (containerID : String) : ContainerInfoMap :=
  eraseEntry m containerID

/-! ## Cloudflare provider model (cloudflare.go, tunnel.go) -/

/-- cloudflare.go CloudflareZone: a configured (domain suffix, zone ID) pair. -/
structure CloudflareZone where
  Domain : String
  ZoneID : String
deriving DecidableEq

/-- cloudflare.go CloudflareConfig (the fields the sync engine reads).
`ExcludeDomains` lists the domains mapped to true in the Go map[string]bool. -/
structure CloudflareConfig where
  TargetDomain : String
  Proxied : Bool
  ExcludeDomains : List String
  Zones : List CloudflareZone
deriving DecidableEq

/-- Go `s.config.ExcludeDomains[domain]` (false when absent). -/
def excluded (cfg : CloudflareConfig) (domain : String) : Bool :=
  cfg.ExcludeDomains.contains domain

/-- A remote DNS record.  `zone` keeps the per-zone grouping of the provider's
record sets; `rtype` is the record type string ("CNAME"). -/
structure DNSRecord where
  recID : Nat
  zone : String
  rtype : String
  name : String
  content : String
  proxied : Bool
deriving DecidableEq

/-- tunnel.go cloudflare.UnvalidatedIngressRule (the fields the syncer uses). -/
structure IngressRule where
  Hostname : String
  Service : String
deriving DecidableEq

/-- One remote-provider API call, as observed in the operation log.
`deleteRecord` also carries the name of the record being deleted (taken from
the listing that produced its ID).  `ingressUpdate`/`ingressInsert`/
`ingressRemove` record the per-hostname mutations of the ingress list that a
subsequent `putTunnelConfig` pushes. -/
inductive CFOp where
  | listRecords (zone rtype name : String)
  | createRecord (zone : String) (rec : DNSRecord)
  | updateRecord (zone : String) (recID : Nat) (rec : DNSRecord)
  | deleteRecord (zone : String) (recID : Nat) (name : String)
  | getTunnelConfig
  | putTunnelConfig (ingress : List IngressRule)
  | ingressUpdate (hostname : String)
  | ingressInsert (hostname : String)
  | ingressRemove (hostname : String)
deriving DecidableEq

/-- The domain names an operation is about. -/
def CFOp.subjects : CFOp → List String
  | .listRecords _ _ name => [name]
  | .createRecord _ rec => [rec.name]
  | .updateRecord _ _ rec => [rec.name]
  | .deleteRecord _ _ name => [name]
  | .getTunnelConfig => []
  | .putTunnelConfig _ => []
  | .ingressUpdate hostname => [hostname]
  | .ingressInsert hostname => [hostname]
  | .ingressRemove hostname => [hostname]

/-- Remote provider state: the DNS records (all zones), a fresh-ID counter,
the tunnel's ingress rule list, and the log of API calls made so far. -/
structure CFState where
  records : List DNSRecord
  nextID : Nat
  ingress : List IngressRule
  log : List CFOp
deriving DecidableEq

/-- Does a record match the (zone, type, name) filter of ListDNSRecords? -/
def recMatches (zone rtype name : String) (r : DNSRecord) : Bool :=
  r.zone == zone && r.rtype == rtype && r.name == name

/-- Provider ListDNSRecords: filter by zone, type and name (read-only). -/
def listDNSRecords (s : CFState) (zone rtype name : String) :
    List DNSRecord × CFState :=
  (s.records.filter (recMatches zone rtype name),
   { s with log := s.log ++ [CFOp.listRecords zone rtype name] })

/-- Provider CreateDNSRecord: append the record with a fresh ID. -/
def createDNSRecord (s : CFState) (zone : String) (r : DNSRecord) : CFState :=
  let newRec := { r with recID := s.nextID, zone := zone }
  { s with records := s.records ++ [newRec]
           nextID := s.nextID + 1
           log := s.log ++ [CFOp.createRecord zone newRec] }

/-- Replace the first record with the given zone and ID (the repository's own
mock provider updates the first ID match within the zone). -/
def updateFirst : List DNSRecord → String → Nat → DNSRecord → List DNSRecord
  | [], _, _, _ => []
  | old :: rest, zone, recID, r =>
    if old.zone == zone && old.recID == recID then
      { r with recID := recID, zone := zone } :: rest
    else old :: updateFirst rest zone recID r

/-- Provider UpdateDNSRecord: update the record with the given ID in place. -/
def updateDNSRecord (s : CFState) (zone : String) (recID : Nat) (r : DNSRecord) : CFState :=
  { s with records := updateFirst s.records zone recID r
           log := s.log ++ [CFOp.updateRecord zone recID r] }

/-- Provider DeleteDNSRecord: remove the record with the given ID; `name` is
the observed name of that record (from the listing that supplied the ID). -/
def deleteDNSRecord (s : CFState) (zone : String) (recID : Nat) (name : String) : CFState :=
  { s with records := s.records.filter (fun old => !(old.zone == zone && old.recID == recID))
           log := s.log ++ [CFOp.deleteRecord zone recID name] }

/-- cloudflare.go zone suffix test: the domain equals the configured suffix or
ends with "." followed by it (strings.HasSuffix(domain, "."+zone.Domain));
tunnel.go findZoneForDomain inlines the same byte-index comparison.  The
suffix test is taken on the character lists; this agrees with Go's byte-wise
HasSuffix because the pattern starts with the ASCII byte '.', which cannot
occur inside a multi-byte UTF-8 sequence. -/
def zoneMatches (domain : String) (z : CloudflareZone) : Bool :=
  domain == z.Domain || ("." ++ z.Domain).data.isSuffixOf domain.data

/-- The loop body of findZoneForDomain: keep the matching zone with the
strictly greatest suffix length seen so far (bestMatch, bestZoneID). -/
def findZoneLoop (domain : String) : List CloudflareZone → String × String → String × String
  | [], best => best
  | z :: rest, best =>
    findZoneLoop domain rest
      (if zoneMatches domain z && z.Domain.length > best.1.length then
        (z.Domain, z.ZoneID)
      else best)

/-- cloudflare.go / tunnel.go findZoneForDomain: longest matching configured
suffix wins; "" when no zone matches. -/
def findZoneForDomain (zones : List CloudflareZone) (domain : String) : String :=
  (findZoneLoop domain zones ("", "")).2

/-- cloudflare.go upsertRecord: list existing CNAME records for the literal
name; create one when none exist; no write when the first existing record
already has the target as content; otherwise update that record in place. -/
def upsertRecord (cfg : CloudflareConfig) (s : CFState) (zoneID domain : String) : CFState :=
  let listed := listDNSRecords s zoneID "CNAME" domain
  let s1 := listed.2
  let record : DNSRecord :=
    { recID := 0, zone := zoneID, rtype := "CNAME"
      name := domain, content := cfg.TargetDomain, proxied := cfg.Proxied }
  match listed.1 with
  | rec :: _ =>
    if rec.content == cfg.TargetDomain then s1
    else updateDNSRecord s1 zoneID rec.recID record
  | [] => createDNSRecord s1 zoneID record

/-- cloudflare.go deleteRecord: list the CNAME records for the name and delete
each one found (absence is not an error). -/
def deleteRecord (s : CFState) (zoneID domain : String) : CFState :=
  let listed := listDNSRecords s zoneID "CNAME" domain
  listed.1.foldl (fun s rec => deleteDNSRecord s zoneID rec.recID rec.name) listed.2

/-- cloudflare.go SyncDomains: per domain, skip when excluded, skip when no
zone matches, otherwise upsert. -/
def SyncDomains (cfg : CloudflareConfig) (s : CFState) (domains : List String) : CFState :=
  domains.foldl
    (fun s domain =>
      if excluded cfg domain then s
      else
        let zoneID := findZoneForDomain cfg.Zones domain
        if zoneID == "" then s
        else upsertRecord cfg s zoneID domain)
    s

/-- cloudflare.go RemoveDomains: per domain, skip when excluded, skip when no
zone matches, otherwise delete its CNAME records. -/
def RemoveDomains (cfg : CloudflareConfig) (s : CFState) (domains : List String) : CFState :=
  domains.foldl
    (fun s domain =>
      if excluded cfg domain then s
      else
        let zoneID := findZoneForDomain cfg.Zones domain
        if zoneID == "" then s
        else deleteRecord s zoneID domain)
    s

/-! ## Tunnel route model (tunnel.go) -/

/-- The catch-all ingress rule synthesized on an empty list. -/
def catchAllRule : IngressRule := { Hostname := "", Service := "http_status:404" }

/-- The inner rule scan of AddRoutes: find the first rule with the hostname;
return none when absent, otherwise the list with that rule's service updated
(second component: whether anything changed). -/
def updateIngressRule (hostname serviceURL : String) :
    List IngressRule → Option (List IngressRule × Bool)
  | [] => none
  | rule :: rest =>
    if rule.Hostname == hostname then
      if rule.Service == serviceURL then some (rule :: rest, false)
      else some ({ rule with Service := serviceURL } :: rest, true)
    else
      match updateIngressRule hostname serviceURL rest with
      | some (rest2, changed) => some (rule :: rest2, changed)
      | none => none

/-- AddRoutes insertion: before the last rule (the catch-all) when the list is
non-empty; on an empty list, the new rule followed by a synthesized catch-all. -/
def insertBeforeLast (ingress : List IngressRule) (newRule : IngressRule) : List IngressRule :=
  match ingress with
  | [] => [newRule, catchAllRule]
  | _ => ingress.dropLast ++ [newRule, ingress.getLastD catchAllRule]

/-- Loop state of the AddRoutes hostname loop: the working ingress copy, the
modified flag, and the per-hostname mutation ops performed. -/
structure AddLoop where
  ingress : List IngressRule
  modified : Bool
  ops : List CFOp
deriving DecidableEq

/-- One iteration of the AddRoutes hostname loop. -/
def addRoutesStep (cfg : CloudflareConfig) (serviceURL : String)
    (st : AddLoop) (hostname : String) : AddLoop :=
  if excluded cfg hostname then st
  else
    match updateIngressRule hostname serviceURL st.ingress with
    | some (ing2, changed) =>
      if changed then
        { ingress := ing2, modified := true, ops := st.ops ++ [CFOp.ingressUpdate hostname] }
      else { st with ingress := ing2 }
    | none =>
      { ingress := insertBeforeLast st.ingress { Hostname := hostname, Service := serviceURL }
        modified := true
        ops := st.ops ++ [CFOp.ingressInsert hostname] }

/-- tunnel.go upsertTunnelDNS: same upsert discipline as cloudflare.go but
with the tunnel CNAME target, and a silent skip when no zone matches. -/
def upsertTunnelDNS (cfg : CloudflareConfig) (s : CFState)
    (hostname cnameTarget : String) : CFState :=
  let zoneID := findZoneForDomain cfg.Zones hostname
  if zoneID == "" then s
  else
    let listed := listDNSRecords s zoneID "CNAME" hostname
    let s1 := listed.2
    let record : DNSRecord :=
      { recID := 0, zone := zoneID, rtype := "CNAME"
        name := hostname, content := cnameTarget, proxied := cfg.Proxied }
    match listed.1 with
    | rec :: _ =>
      if rec.content == cnameTarget then s1
      else updateDNSRecord s1 zoneID rec.recID record
    | [] => createDNSRecord s1 zoneID record

/-- tunnel.go deleteTunnelDNS: list and delete the hostname's CNAME records;
silent skip when no zone matches. -/
def deleteTunnelDNS (cfg : CloudflareConfig) (s : CFState) (hostname : String) : CFState :=
  let zoneID := findZoneForDomain cfg.Zones hostname
  if zoneID == "" then s
  else
    let listed := listDNSRecords s zoneID "CNAME" hostname
    listed.1.foldl (fun s rec => deleteDNSRecord s zoneID rec.recID rec.name) listed.2

/-- tunnel.go AddRoutes: GET the tunnel config; per non-excluded hostname,
no-op / update-in-place / insert-before-catch-all on the ingress copy; PUT
the list back only when modified; then upsert one tunnel CNAME record per
non-excluded hostname. -/
def AddRoutes (cfg : CloudflareConfig) (tunnelID : String) (s : CFState)
    (hostnames : List String) (serviceURL : String) : CFState :=
  let s := { s with log := s.log ++ [CFOp.getTunnelConfig] }
  let st := hostnames.foldl (addRoutesStep cfg serviceURL)
    { ingress := s.ingress, modified := false, ops := [] }
  let s :=
    if st.modified then
      { s with ingress := st.ingress
               log := s.log ++ st.ops ++ [CFOp.putTunnelConfig st.ingress] }
    else { s with log := s.log ++ st.ops }
  let cnameTarget := tunnelID ++ ".cfargotunnel.com"
  hostnames.foldl
    (fun s hostname =>
      if excluded cfg hostname then s
      else upsertTunnelDNS cfg s hostname cnameTarget)
    s

/-- tunnel.go RemoveRoutes: GET the tunnel config; drop every rule whose
hostname is in the non-excluded name set; PUT back only when something was
dropped; then delete the tunnel CNAME records per non-excluded hostname. -/
def RemoveRoutes (cfg : CloudflareConfig) (s : CFState) (hostnames : List String) : CFState :=
  let s := { s with log := s.log ++ [CFOp.getTunnelConfig] }
  let removeSet := hostnames.filter (fun h => !(excluded cfg h))
  let kept := s.ingress.filter (fun rule => !(removeSet.contains rule.Hostname))
  let removedOps := (s.ingress.filter (fun rule => removeSet.contains rule.Hostname)).map
    (fun rule => CFOp.ingressRemove rule.Hostname)
  let s :=
    if s.ingress.any (fun rule => removeSet.contains rule.Hostname) then
      { s with ingress := kept
               log := s.log ++ removedOps ++ [CFOp.putTunnelConfig kept] }
    else { s with log := s.log ++ removedOps }
  hostnames.foldl
    (fun s hostname =>
      if excluded cfg hostname then s
      else deleteTunnelDNS cfg s hostname)
    s

/-! ## Derived notions used by the claims -/

/-- The remote CNAME records for one (zone, literal name) key. -/
def cnameRecords (s : CFState) (zone name : String) : List DNSRecord :=
  s.records.filter (recMatches zone "CNAME" name)

/-- Well-formed provider record state: record IDs are distinct and below the
fresh-ID counter (every reachable provider state satisfies this). -/
def WFRecords (s : CFState) : Prop :=
  (s.records.map (fun r => r.recID)).Nodup ∧ ∀ r ∈ s.records, r.recID < s.nextID

/-- A name the sync engine will actually act on: not excluded and covered by a
configured zone. -/
def relevant (cfg : CloudflareConfig) (d : String) : Bool :=
  !(excluded cfg d) && (findZoneForDomain cfg.Zones d != "")

/-- The tunnel invariant: the list decomposes as a front segment with no empty
hostname followed by one final catch-all rule (empty hostname) — i.e. exactly
one catch-all and it is the last element. -/
def catchAllInvariant (ingress : List IngressRule) : Prop :=
  ∃ front lastRule, ingress = front ++ [lastRule]
    ∧ lastRule.Hostname = "" ∧ ∀ r ∈ front, r.Hostname ≠ ""

/-! ## Concrete states used as counterexamples and witnesses -/

/-- An entry whose literal name sits in both the plain and the redirect set. -/
def c1Entry : ContainerInfo :=
  { containerID := "c1", address := some "10.0.0.1", address6 := none
    domains := ["app.docker.loc"], cnameDomains := ["app.docker.loc"] }

def c1DD : DockerDiscovery :=
  { containerInfoMap := [("c1", c1Entry)], ttl := 3600
    traefikCNAME := "traefik.homelab.net", traefikA := none }

/-- A non-redirect entry with an IPv4 address and no IPv6 address. -/
def c2Entry : ContainerInfo :=
  { containerID := "c2", address := some "172.17.0.5", address6 := none
    domains := ["web.docker.loc"], cnameDomains := [] }

def c2DD : DockerDiscovery :=
  { containerInfoMap := [("c2", c2Entry)], ttl := 3600
    traefikCNAME := "", traefikA := none }

def c9Entry : ContainerInfo :=
  { containerID := "c9", address := some "10.0.0.9", address6 := none
    domains := ["myapp.loc"], cnameDomains := [] }

def c9Map : ContainerInfoMap := [("c9", c9Entry)]

/-- Tunnel syncer config with no exclusions and no zones (the DNS-record leg
of AddRoutes/RemoveRoutes then skips every hostname). -/
def tunnelCfg : CloudflareConfig :=
  { TargetDomain := "", Proxied := false, ExcludeDomains := [], Zones := [] }

/-- A tunnel seeded with only the catch-all rule. -/
def tunnelStart : CFState :=
  { records := [], nextID := 1, ingress := [catchAllRule], log := [] }

def tunnelAfterAdd : CFState :=
  AddRoutes tunnelCfg "tid" tunnelStart ["app.homelab.net", "git.homelab.net"] "http://traefik:80"

def tunnelAfterAddTwice : CFState :=
  AddRoutes tunnelCfg "tid" tunnelAfterAdd ["app.homelab.net", "git.homelab.net"] "http://traefik:80"

/-- A pre-existing registry entry used to show removal on empty domain sets. -/
def c7Old : ContainerInfo :=
  { containerID := "c7", address := some "10.0.0.7", address6 := none
    domains := ["old.loc"], cnameDomains := [] }

/-- The redirect-only entry stored for an address-less container. -/
def c10Stored : ContainerInfo :=
  { containerID := "c10", address := none, address6 := none
    domains := [], cnameDomains := ["t.loc"] }

/-- Cloudflare sync config for witnesses: one zone, no exclusions. -/
def cfCfg : CloudflareConfig :=
  { TargetDomain := "traefik.homelab.net", Proxied := false, ExcludeDomains := []
    Zones := [{ Domain := "homelab.net", ZoneID := "zone1" }] }

/-- An empty provider state. -/
def cfStart : CFState := { records := [], nextID := 1, ingress := [], log := [] }

/-- Config with one excluded domain, for the exclusion claim. -/
def c8Cfg : CloudflareConfig :=
  { TargetDomain := "t.homelab.net", Proxied := false
    ExcludeDomains := ["secret.homelab.net"]
    Zones := [{ Domain := "homelab.net", ZoneID := "zone1" }] }

/-! ## Registry helper lemmas -/

theorem lookupEntry_eraseEntry (m : ContainerInfoMap) (cid : String) :
    lookupEntry (eraseEntry m cid) cid = none := by
  unfold lookupEntry eraseEntry
  rw [Option.map_eq_none', List.find?_eq_none]
  intro p hp
  have := (List.mem_filter.mp hp).2
  simpa [bne] using this

theorem lookupEntry_cons_self (cid : String) (ci : ContainerInfo) (m : ContainerInfoMap) :
    lookupEntry ((cid, ci) :: m) cid = some ci := by
  unfold lookupEntry
  simp [List.find?]

/-- Characterization of the stored entry after an upsert whose IPv4 address
resolution yielded no address: the plain domains are dropped and the entry
survives exactly when some redirect domain exists. -/
theorem updateInfo_noAddr_lookup (m : ContainerInfoMap) (cid : String)
    (rr : List (List String)) (tr : Option (List String)) (v6 : Option String) :
    lookupEntry (updateContainerInfo m cid rr tr none v6) cid =
      if 0 < (resolveDomainsByContainer rr tr).2.length then
        some { containerID := cid, address := none, address6 := none
               domains := [], cnameDomains := (resolveDomainsByContainer rr tr).2 }
      else none := by
  unfold updateContainerInfo
  rcases hds : (resolveDomainsByContainer rr tr).1 with _ | ⟨d, ds⟩ <;>
    rcases hcs : (resolveDomainsByContainer rr tr).2 with _ | ⟨c, cs⟩ <;>
      simp [hds, hcs, lookupEntry_eraseEntry, lookupEntry_cons_self]

/-- Every pair in the upserted map is either an old pair or the freshly stored
entry, whose address fields come from the address-resolution parameters. -/
theorem updateContainerInfo_mem (m : ContainerInfoMap) (cid : String)
    (rr : List (List String)) (tr : Option (List String))
    (a4 : Option String) (v6 : Option String)
    (p : String × ContainerInfo) (hp : p ∈ updateContainerInfo m cid rr tr a4 v6) :
    p ∈ m ∨ (p.2.address = a4
      ∧ p.2.address6 = (match a4 with | some _ => v6 | none => none)) := by
  cases a4 <;>
    simp only [updateContainerInfo, eraseEntry] at hp <;>
    split at hp <;> split at hp <;>
    first
      | exact Or.inl (List.mem_filter.mp hp).1
      | exact (List.mem_cons.mp hp).elim
          (fun h => by subst h; exact Or.inr ⟨rfl, rfl⟩)
          (fun h => Or.inl (List.mem_filter.mp h).1)

/-! ## Claim C9 -/

/-- C9: containerInfoByDomain matches a query name only by exact string
equality between the query name and a stored domain with one trailing dot
appended; a query differing only in letter case, or lacking the trailing dot,
matches no entry and returns none, and an unmatched query makes ServeDNS
delegate to the next handler. -/
theorem C9_exact_literal_match :
    (∀ (m : ContainerInfoMap) (q : String),
      (containerInfoByDomain m q).isSome =
        m.any (fun p => (p.2.domains ++ p.2.cnameDomains).any (fun d => d ++ "." == q)))
    ∧ containerInfoByDomain c9Map "MyApp.loc." = none
    ∧ containerInfoByDomain c9Map "myapp.loc" = none
    ∧ containerInfoByDomain c9Map "myapp.loc." =
        some { containerInfo := c9Entry, isCNAME := false }
    ∧ (∀ (dd : DockerDiscovery) (qt : QType) (q : String),
        containerInfoByDomain dd.containerInfoMap q = none →
        serveDNS dd qt q = ServeResult.next) := by
  refine ⟨?_, by decide, by decide, by decide, ?_⟩
  · intro m q
    induction m with
    | nil => rfl
    | cons p rest ih =>
      rcases p with ⟨k, ci⟩
      by_cases h1 : ci.domains.any (fun d => d ++ "." == q)
      · simp [containerInfoByDomain, h1, List.any_append]
      · by_cases h2 : ci.cnameDomains.any (fun d => d ++ "." == q)
        · simp [containerInfoByDomain, h1, h2, List.any_append]
        · simp [containerInfoByDomain, h1, h2, List.any_append, ih]
  · intro dd qt q h
    cases qt <;> simp [serveDNS, h, finishAnswers]

/-- Witness for C9 at a concrete unmatched query. -/
theorem C9_witness :
    serveDNS c2DD QType.A "unknown.loc." = ServeResult.next :=
  C9_exact_literal_match.2.2.2.2 c2DD QType.A "unknown.loc." (by decide)

/-! ## Claim C2 -/

/-- C2: an AAAA query whose name matches a non-redirect entry that has an IPv4
address but no IPv6 address gets a NODATA reply: authoritative, rcode NOERROR,
empty answer section; it is not delegated to the next handler. -/
theorem C2_aaaa_nodata (dd : DockerDiscovery) (q : String)
    (r : DomainLookupResult) (a : String)
    (hlook : containerInfoByDomain dd.containerInfoMap q = some r)
    (hplain : r.isCNAME = false)
    (h6 : r.containerInfo.address6 = none)
    (h4 : r.containerInfo.address = some a) :
    serveDNS dd QType.AAAA q = ServeResult.written true rcodeSuccess []
      ∧ serveDNS dd QType.AAAA q ≠ ServeResult.next := by
  have hw : serveDNS dd QType.AAAA q = ServeResult.written true rcodeSuccess [] := by
    simp [serveDNS, hlook, hplain, h6, h4]
  exact ⟨hw, by simp [hw]⟩

/-- Witness for C2 on a concrete registry. -/
theorem C2_witness :
    serveDNS c2DD QType.AAAA "web.docker.loc." = ServeResult.written true rcodeSuccess []
      ∧ serveDNS c2DD QType.AAAA "web.docker.loc." ≠ ServeResult.next :=
  C2_aaaa_nodata c2DD "web.docker.loc."
    { containerInfo := c2Entry, isCNAME := false } "172.17.0.5"
    (by decide) rfl rfl rfl

/-! ## Claim C1 (corrected) -/

/-- C1 counterexample: a registry entry holding the same literal name in both
its plain and its redirect domain set.  containerInfoByDomain classifies the
name as NON-redirect (isCNAME = false) because the plain domains are checked
first, and ServeDNS answers the A query with an A record derived from the
plain domain — refuting the claim that the redirect classification wins and
that no A answer is ever produced; the CNAME query is delegated instead of
being answered with a CNAME. -/
theorem C1_counterexample :
    containerInfoByDomain c1DD.containerInfoMap "app.docker.loc." =
      some { containerInfo := c1Entry, isCNAME := false }
    ∧ serveDNS c1DD QType.A "app.docker.loc." =
        ServeResult.written true rcodeSuccess [RR.A "app.docker.loc." (some "10.0.0.1") 3600]
    ∧ serveDNS c1DD QType.CNAME "app.docker.loc." = ServeResult.next := by
  refine ⟨by decide, by decide, by decide⟩

/-- C1 amended: when a literal name matches both a plain domain and a redirect
domain of the same entry, the PLAIN classification wins (plain domains are
checked before redirect domains within an entry), and for a non-redirect
lookup result an A-type query is answered with an A record derived from the
entry's address. -/
theorem C1_amended_plain_wins (containerID : String) (ci : ContainerInfo)
    (rest : ContainerInfoMap) (q : String)
    (hplain : ci.domains.any (fun d => d ++ "." == q) = true)
    (hcname : ci.cnameDomains.any (fun d => d ++ "." == q) = true) :
    containerInfoByDomain ((containerID, ci) :: rest) q =
      some { containerInfo := ci, isCNAME := false }
    ∧ ∀ (dd : DockerDiscovery) (r : DomainLookupResult),
        containerInfoByDomain dd.containerInfoMap q = some r → r.isCNAME = false →
        serveDNS dd QType.A q =
          ServeResult.written true rcodeSuccess [RR.A q r.containerInfo.address dd.ttl] := by
  constructor
  · simp [containerInfoByDomain, hplain]
  · intro dd r hlook hcn
    simp [serveDNS, hlook, hcn, getAnswer, finishAnswers, rcodeSuccess]

/-- Witness for the amended C1 on the concrete dual-classified entry. -/
theorem C1_amended_witness :
    containerInfoByDomain [("c1", c1Entry)] "app.docker.loc." =
      some { containerInfo := c1Entry, isCNAME := false } :=
  (C1_amended_plain_wins "c1" c1Entry [] "app.docker.loc." (by decide) (by decide)).1

/-! ## Claim C7 -/

/-- C7: the registry upsert computes domains independently of address
resolution; when IPv4 address resolution yields no address the plain domains
are dropped while the redirect domains are kept (a redirect-only entry is
stored exactly when redirect domains exist), and when the combined domain set
is empty no entry is stored and any prior entry for the ID is gone. -/
theorem C7_upsert_drops_plain_keeps_redirect (m : ContainerInfoMap) (cid : String)
    (rr : List (List String)) (tr : Option (List String))
    (a4 : Option String) (v6 : Option String) :
    (lookupEntry (updateContainerInfo m cid rr tr none v6) cid =
      if 0 < (resolveDomainsByContainer rr tr).2.length then
        some { containerID := cid, address := none, address6 := none
               domains := [], cnameDomains := (resolveDomainsByContainer rr tr).2 }
      else none)
    ∧ ((resolveDomainsByContainer rr tr).1 = [] →
       (resolveDomainsByContainer rr tr).2 = [] →
        lookupEntry (updateContainerInfo m cid rr tr a4 v6) cid = none) := by
  refine ⟨updateInfo_noAddr_lookup m cid rr tr v6, ?_⟩
  intro h1 h2
  unfold updateContainerInfo
  simp [h1, h2, lookupEntry_eraseEntry]

/-- Witness for C7: a container with one traefik-label domain and no address
keeps a redirect-only entry; one with no domains at all loses its entry. -/
theorem C7_witness :
    lookupEntry (updateContainerInfo [] "c7" [["a.loc"]] (some ["t.loc"]) none none) "c7" =
      some { containerID := "c7", address := none, address6 := none
             domains := [], cnameDomains := ["t.loc"] }
    ∧ lookupEntry
        (updateContainerInfo [("c7", c7Old)] "c7" [] none (some "10.0.0.7") none) "c7" = none := by
  constructor
  · exact (C7_upsert_drops_plain_keeps_redirect [] "c7" [["a.loc"]] (some ["t.loc"])
      (some "ignored") none).1.trans (by decide)
  · exact (C7_upsert_drops_plain_keeps_redirect [("c7", c7Old)] "c7" [] none
      (some "10.0.0.7") none).2 rfl rfl

/-! ## Claim C10 -/

/-- C10: IPv6 resolution is attempted only after IPv4 resolution returned an
address, so every stored entry with an IPv6 address also has an IPv4 address
(an invariant preserved by upsert and removal), and a container whose IPv4
resolution yields nothing (e.g. IPv6-only) has its plain domains dropped: its
entry, if stored at all, is redirect-only. -/
theorem C10_v6_implies_v4 (m : ContainerInfoMap) (cid : String)
    (rr : List (List String)) (tr : Option (List String))
    (a4 : Option String) (v6 : Option String)
    (hm : ∀ p ∈ m, p.2.address6.isSome = true → p.2.address.isSome = true) :
    (∀ p ∈ updateContainerInfo m cid rr tr a4 v6,
        p.2.address6.isSome = true → p.2.address.isSome = true)
    ∧ (∀ ci, lookupEntry (updateContainerInfo m cid rr tr none v6) cid = some ci →
        ci.domains = [] ∧ ci.address = none ∧ ci.address6 = none)
    ∧ (∀ p ∈ removeContainerInfo m cid,
        p.2.address6.isSome = true → p.2.address.isSome = true) := by
  refine ⟨?_, ?_, ?_⟩
  · intro p hp h6
    rcases updateContainerInfo_mem m cid rr tr a4 v6 p hp with h | ⟨ha, ha6⟩
    · exact hm p h h6
    · cases a4 with
      | none => rw [ha6] at h6; simp at h6
      | some a => rw [ha]; rfl
  · intro ci hci
    rw [updateInfo_noAddr_lookup] at hci
    by_cases hc : 0 < (resolveDomainsByContainer rr tr).2.length
    · rw [if_pos hc] at hci
      cases hci
      exact ⟨rfl, rfl, rfl⟩
    · rw [if_neg hc] at hci
      cases hci
  · intro p hp
    exact hm p (List.mem_filter.mp hp).1

/-- Witness for C10: the entry stored for an address-less container with one
redirect domain is redirect-only. -/
theorem C10_witness :
    c10Stored.domains = [] ∧ c10Stored.address = none ∧ c10Stored.address6 = none :=
  (C10_v6_implies_v4 [] "c10" [["a.loc"]] (some ["t.loc"]) none (some "fd00::1")
      (by simp)).2.1 c10Stored (by decide)

/-! ## findZoneForDomain lemmas (claim C4) -/

theorem stringLengthPos (s : String) (h : s ≠ "") : 0 < s.length := by
  cases s with
  | mk data =>
    cases data with
    | nil => exact absurd rfl h
    | cons c cs => simp [String.length]

/-- Loop invariant of findZoneForDomain: the final accumulator is either the
starting accumulator (and every matching zone in the remainder has suffix
length at most the starting best length) or the (Domain, ZoneID) of a matching
zone whose suffix length strictly beats the start and is maximal among the
remainder's matches. -/
theorem findZoneLoop_spec (domain : String) (zones : List CloudflareZone) :
    ∀ best : String × String,
      (findZoneLoop domain zones best = best
        ∧ ∀ z ∈ zones, zoneMatches domain z = true → z.Domain.length ≤ best.1.length)
      ∨ (∃ z ∈ zones, zoneMatches domain z = true
          ∧ findZoneLoop domain zones best = (z.Domain, z.ZoneID)
          ∧ best.1.length < z.Domain.length
          ∧ ∀ z' ∈ zones, zoneMatches domain z' = true →
              z'.Domain.length ≤ z.Domain.length) := by
  induction zones with
  | nil =>
    intro best
    exact Or.inl ⟨rfl, by simp⟩
  | cons z rest ih =>
    intro best
    by_cases hc : (zoneMatches domain z && decide (z.Domain.length > best.1.length)) = true
    · have hab := hc
      rw [Bool.and_eq_true] at hab
      have hm : zoneMatches domain z = true := hab.1
      have hlt : best.1.length < z.Domain.length := of_decide_eq_true hab.2
      have hstep : findZoneLoop domain (z :: rest) best =
          findZoneLoop domain rest (z.Domain, z.ZoneID) := by
        simp only [findZoneLoop, hc, if_true]
      rcases ih (z.Domain, z.ZoneID) with ⟨heq, hall⟩ | ⟨w, hw, hwm, hweq, hwlt, hwall⟩
      · right
        refine ⟨z, List.mem_cons_self z rest, hm, ?_, hlt, ?_⟩
        · rw [hstep, heq]
        · intro z' hz' hm'
          rcases List.mem_cons.mp hz' with h | h
          · subst h; exact le_refl _
          · exact hall z' h hm'
      · right
        refine ⟨w, List.mem_cons_of_mem z hw, hwm, ?_, lt_trans hlt hwlt, ?_⟩
        · rw [hstep, hweq]
        · intro z' hz' hm'
          rcases List.mem_cons.mp hz' with h | h
          · subst h; exact le_of_lt hwlt
          · exact hwall z' h hm'
    · have hstep : findZoneLoop domain (z :: rest) best =
          findZoneLoop domain rest best := by
        simp only [findZoneLoop]
        rw [if_neg hc]
      have hle : zoneMatches domain z = true → z.Domain.length ≤ best.1.length := by
        intro hm
        by_contra hgt
        exact hc (by simp [hm, Nat.lt_of_not_le hgt])
      rcases ih best with ⟨heq, hall⟩ | ⟨w, hw, hwm, hweq, hwlt, hwall⟩
      · left
        refine ⟨by rw [hstep, heq], ?_⟩
        intro z' hz' hm'
        rcases List.mem_cons.mp hz' with h | h
        · subst h; exact hle hm'
        · exact hall z' h hm'
      · right
        refine ⟨w, List.mem_cons_of_mem z hw, hwm, by rw [hstep, hweq], hwlt, ?_⟩
        intro z' hz' hm'
        rcases List.mem_cons.mp hz' with h | h
        · subst h; exact le_trans (hle hm') (le_of_lt hwlt)
        · exact hwall z' h hm'

/-! ## Operation-log lemmas: which names the sync engines touch -/

theorem deleteFold_log (z d : String) :
    ∀ recs : List DNSRecord, (∀ r ∈ recs, r.name = d) →
      ∀ s0 : CFState,
        ∀ op ∈ (recs.foldl (fun s rec => deleteDNSRecord s z rec.recID rec.name) s0).log,
          op ∈ s0.log ∨ op.subjects = [d] := by
  intro recs
  induction recs with
  | nil => intro _ s0 op hop; exact Or.inl hop
  | cons r rest ih =>
    intro hnames s0 op hop
    rw [List.foldl_cons] at hop
    rcases ih (fun x hx => hnames x (List.mem_cons_of_mem r hx)) _ op hop with h | h
    · simp only [deleteDNSRecord, List.mem_append, List.mem_singleton] at h
      rcases h with h | h
      · exact Or.inl h
      · subst h
        right
        simp [CFOp.subjects, hnames r (List.mem_cons_self r rest)]
    · exact Or.inr h

theorem upsertRecord_log (cfg : CloudflareConfig) (s : CFState) (z d : String) :
    ∀ op ∈ (upsertRecord cfg s z d).log, op ∈ s.log ∨ op.subjects = [d] := by
  intro op hop
  simp only [upsertRecord, listDNSRecords] at hop
  rcases hE : List.filter (recMatches z "CNAME" d) s.records with _ | ⟨rec, restR⟩ <;>
    rw [hE] at hop <;> dsimp only at hop
  · simp only [createDNSRecord, List.mem_append, List.mem_singleton] at hop
    rcases hop with (h | h) | h
    · exact Or.inl h
    · subst h; exact Or.inr rfl
    · subst h; exact Or.inr rfl
  · split at hop
    · simp only [List.mem_append, List.mem_singleton] at hop
      rcases hop with h | h
      · exact Or.inl h
      · subst h; exact Or.inr rfl
    · simp only [updateDNSRecord, List.mem_append, List.mem_singleton] at hop
      rcases hop with (h | h) | h
      · exact Or.inl h
      · subst h; exact Or.inr rfl
      · subst h; exact Or.inr rfl

theorem filterCNAME_names (l : List DNSRecord) (z d : String) :
    ∀ r ∈ List.filter (recMatches z "CNAME" d) l, r.name = d := by
  intro r hr
  have h := (List.mem_filter.mp hr).2
  simp only [recMatches, Bool.and_eq_true, beq_iff_eq] at h
  exact h.2

theorem deleteRecord_log (s : CFState) (z d : String) :
    ∀ op ∈ (deleteRecord s z d).log, op ∈ s.log ∨ op.subjects = [d] := by
  intro op hop
  simp only [deleteRecord, listDNSRecords] at hop
  rcases deleteFold_log z d _ (filterCNAME_names s.records z d) _ op hop with h | h
  · simp only [List.mem_append, List.mem_singleton] at h
    rcases h with h | h
    · exact Or.inl h
    · subst h; exact Or.inr rfl
  · exact Or.inr h

theorem SyncDomains_log (cfg : CloudflareConfig) (ds : List String) :
    ∀ s : CFState, ∀ op ∈ (SyncDomains cfg s ds).log,
      op ∈ s.log ∨ ∃ d, op.subjects = [d] ∧ d ∈ ds ∧ excluded cfg d = false
        ∧ findZoneForDomain cfg.Zones d ≠ "" := by
  induction ds with
  | nil => intro s op hop; exact Or.inl hop
  | cons d rest ih =>
    intro s op hop
    simp only [SyncDomains, List.foldl_cons] at hop ih
    rcases ih _ op hop with h | ⟨x, hx1, hx2, hx3, hx4⟩
    · by_cases he : excluded cfg d = true
      · rw [if_pos he] at h
        exact Or.inl h
      · rw [if_neg he] at h
        by_cases hz : (findZoneForDomain cfg.Zones d == "") = true
        · rw [if_pos hz] at h
          exact Or.inl h
        · rw [if_neg hz] at h
          rcases upsertRecord_log cfg s _ d op h with h2 | h2
          · exact Or.inl h2
          · refine Or.inr ⟨d, h2, List.mem_cons_self d rest, Bool.not_eq_true _ ▸ he, ?_⟩
            intro hcon
            exact hz (by simp [hcon])
    · exact Or.inr ⟨x, hx1, List.mem_cons_of_mem d hx2, hx3, hx4⟩

theorem RemoveDomains_log (cfg : CloudflareConfig) (ds : List String) :
    ∀ s : CFState, ∀ op ∈ (RemoveDomains cfg s ds).log,
      op ∈ s.log ∨ ∃ d, op.subjects = [d] ∧ d ∈ ds ∧ excluded cfg d = false
        ∧ findZoneForDomain cfg.Zones d ≠ "" := by
  induction ds with
  | nil => intro s op hop; exact Or.inl hop
  | cons d rest ih =>
    intro s op hop
    simp only [RemoveDomains, List.foldl_cons] at hop ih
    rcases ih _ op hop with h | ⟨x, hx1, hx2, hx3, hx4⟩
    · by_cases he : excluded cfg d = true
      · rw [if_pos he] at h
        exact Or.inl h
      · rw [if_neg he] at h
        by_cases hz : (findZoneForDomain cfg.Zones d == "") = true
        · rw [if_pos hz] at h
          exact Or.inl h
        · rw [if_neg hz] at h
          rcases deleteRecord_log s _ d op h with h2 | h2
          · exact Or.inl h2
          · refine Or.inr ⟨d, h2, List.mem_cons_self d rest, Bool.not_eq_true _ ▸ he, ?_⟩
            intro hcon
            exact hz (by simp [hcon])
    · exact Or.inr ⟨x, hx1, List.mem_cons_of_mem d hx2, hx3, hx4⟩

theorem upsertTunnelDNS_log (cfg : CloudflareConfig) (s : CFState) (h target : String) :
    ∀ op ∈ (upsertTunnelDNS cfg s h target).log, op ∈ s.log ∨ op.subjects = [h] := by
  intro op hop
  simp only [upsertTunnelDNS, listDNSRecords] at hop
  split at hop
  · exact Or.inl hop
  · rcases hE : List.filter (recMatches (findZoneForDomain cfg.Zones h) "CNAME" h) s.records
      with _ | ⟨rec, restR⟩ <;> rw [hE] at hop <;> dsimp only at hop
    · simp only [createDNSRecord, List.mem_append, List.mem_singleton] at hop
      rcases hop with (h1 | h1) | h1
      · exact Or.inl h1
      · subst h1; exact Or.inr rfl
      · subst h1; exact Or.inr rfl
    · split at hop
      · simp only [List.mem_append, List.mem_singleton] at hop
        rcases hop with h1 | h1
        · exact Or.inl h1
        · subst h1; exact Or.inr rfl
      · simp only [updateDNSRecord, List.mem_append, List.mem_singleton] at hop
        rcases hop with (h1 | h1) | h1
        · exact Or.inl h1
        · subst h1; exact Or.inr rfl
        · subst h1; exact Or.inr rfl

theorem deleteTunnelDNS_log (cfg : CloudflareConfig) (s : CFState) (h : String) :
    ∀ op ∈ (deleteTunnelDNS cfg s h).log, op ∈ s.log ∨ op.subjects = [h] := by
  intro op hop
  simp only [deleteTunnelDNS, listDNSRecords] at hop
  split at hop
  · exact Or.inl hop
  · rcases deleteFold_log (findZoneForDomain cfg.Zones h) h _
      (filterCNAME_names s.records _ h) _ op hop with h1 | h1
    · simp only [List.mem_append, List.mem_singleton] at h1
      rcases h1 with h1 | h1
      · exact Or.inl h1
      · subst h1; exact Or.inr rfl
    · exact Or.inr h1

theorem addLoop_ops (cfg : CloudflareConfig) (svc : String) (hostnames : List String) :
    ∀ st : AddLoop, ∀ op ∈ (hostnames.foldl (addRoutesStep cfg svc) st).ops,
      op ∈ st.ops ∨ ∃ h, op.subjects = [h] ∧ h ∈ hostnames ∧ excluded cfg h = false := by
  induction hostnames with
  | nil => intro st op hop; exact Or.inl hop
  | cons hn rest ih =>
    intro st op hop
    rw [List.foldl_cons] at hop
    rcases ih _ op hop with h | ⟨x, hx1, hx2, hx3⟩
    · by_cases he : excluded cfg hn = true
      · rw [addRoutesStep, if_pos he] at h
        exact Or.inl h
      · rw [addRoutesStep, if_neg he] at h
        rcases hU : updateIngressRule hn svc st.ingress with _ | ⟨ing2, changed⟩ <;>
          rw [hU] at h <;> dsimp only at h
        · simp only [List.mem_append, List.mem_singleton] at h
          rcases h with h1 | h1
          · exact Or.inl h1
          · subst h1
            exact Or.inr ⟨hn, rfl, List.mem_cons_self hn rest, Bool.not_eq_true _ ▸ he⟩
        · split at h
          · simp only [List.mem_append, List.mem_singleton] at h
            rcases h with h1 | h1
            · exact Or.inl h1
            · subst h1
              exact Or.inr ⟨hn, rfl, List.mem_cons_self hn rest, Bool.not_eq_true _ ▸ he⟩
          · exact Or.inl h
    · exact Or.inr ⟨x, hx1, List.mem_cons_of_mem hn hx2, hx3⟩

theorem tunnelUpsertFold_log (cfg : CloudflareConfig) (target : String) (hostnames : List String) :
    ∀ s0 : CFState,
      ∀ op ∈ (hostnames.foldl
          (fun s h => if excluded cfg h then s else upsertTunnelDNS cfg s h target) s0).log,
        op ∈ s0.log ∨ ∃ h, op.subjects = [h] ∧ h ∈ hostnames ∧ excluded cfg h = false := by
  induction hostnames with
  | nil => intro s0 op hop; exact Or.inl hop
  | cons hn rest ih =>
    intro s0 op hop
    rw [List.foldl_cons] at hop
    rcases ih _ op hop with h | ⟨x, hx1, hx2, hx3⟩
    · by_cases he : excluded cfg hn = true
      · rw [if_pos he] at h
        exact Or.inl h
      · rw [if_neg he] at h
        rcases upsertTunnelDNS_log cfg s0 hn target op h with h1 | h1
        · exact Or.inl h1
        · exact Or.inr ⟨hn, h1, List.mem_cons_self hn rest, Bool.not_eq_true _ ▸ he⟩
    · exact Or.inr ⟨x, hx1, List.mem_cons_of_mem hn hx2, hx3⟩

theorem tunnelDeleteFold_log (cfg : CloudflareConfig) (hostnames : List String) :
    ∀ s0 : CFState,
      ∀ op ∈ (hostnames.foldl
          (fun s h => if excluded cfg h then s else deleteTunnelDNS cfg s h) s0).log,
        op ∈ s0.log ∨ ∃ h, op.subjects = [h] ∧ h ∈ hostnames ∧ excluded cfg h = false := by
  induction hostnames with
  | nil => intro s0 op hop; exact Or.inl hop
  | cons hn rest ih =>
    intro s0 op hop
    rw [List.foldl_cons] at hop
    rcases ih _ op hop with h | ⟨x, hx1, hx2, hx3⟩
    · by_cases he : excluded cfg hn = true
      · rw [if_pos he] at h
        exact Or.inl h
      · rw [if_neg he] at h
        rcases deleteTunnelDNS_log cfg s0 hn op h with h1 | h1
        · exact Or.inl h1
        · exact Or.inr ⟨hn, h1, List.mem_cons_self hn rest, Bool.not_eq_true _ ▸ he⟩
    · exact Or.inr ⟨x, hx1, List.mem_cons_of_mem hn hx2, hx3⟩

theorem AddRoutes_log (cfg : CloudflareConfig) (tid : String) (s : CFState)
    (hostnames : List String) (svc : String) :
    ∀ op ∈ (AddRoutes cfg tid s hostnames svc).log,
      op ∈ s.log ∨ op.subjects = []
        ∨ ∃ h, op.subjects = [h] ∧ h ∈ hostnames ∧ excluded cfg h = false := by
  intro op hop
  simp only [AddRoutes] at hop
  rcases tunnelUpsertFold_log cfg (tid ++ ".cfargotunnel.com") hostnames _ op hop
    with h | ⟨x, hx1, hx2, hx3⟩
  · split at h <;> simp only [List.mem_append, List.mem_singleton] at h
    · rcases h with ((h1 | h1) | h1) | h1
      · exact Or.inl h1
      · subst h1; exact Or.inr (Or.inl rfl)
      · rcases addLoop_ops cfg svc hostnames _ op h1 with h2 | h2
        · cases h2
        · exact Or.inr (Or.inr h2)
      · subst h1; exact Or.inr (Or.inl rfl)
    · rcases h with (h1 | h1) | h1
      · exact Or.inl h1
      · subst h1; exact Or.inr (Or.inl rfl)
      · rcases addLoop_ops cfg svc hostnames _ op h1 with h2 | h2
        · cases h2
        · exact Or.inr (Or.inr h2)
  · exact Or.inr (Or.inr ⟨x, hx1, hx2, hx3⟩)

theorem RemoveRoutes_log (cfg : CloudflareConfig) (s : CFState) (hostnames : List String) :
    ∀ op ∈ (RemoveRoutes cfg s hostnames).log,
      op ∈ s.log ∨ op.subjects = []
        ∨ ∃ h, op.subjects = [h] ∧ h ∈ hostnames ∧ excluded cfg h = false := by
  intro op hop
  simp only [RemoveRoutes] at hop
  rcases tunnelDeleteFold_log cfg hostnames _ op hop with h | ⟨x, hx1, hx2, hx3⟩
  · have hrem : ∀ o ∈ (List.filter
        (fun rule => (hostnames.filter (fun hh => !(excluded cfg hh))).contains rule.Hostname)
        s.ingress).map (fun rule => CFOp.ingressRemove rule.Hostname),
        ∃ h, o.subjects = [h] ∧ h ∈ hostnames ∧ excluded cfg h = false := by
      intro o ho
      rcases List.mem_map.mp ho with ⟨rule, hrule, rfl⟩
      have hcont := (List.mem_filter.mp hrule).2
      have hmem : rule.Hostname ∈ hostnames.filter (fun hh => !(excluded cfg hh)) := by
        simpa [List.contains] using hcont
      have hmem2 := List.mem_filter.mp hmem
      refine ⟨rule.Hostname, rfl, hmem2.1, ?_⟩
      simpa using hmem2.2
    split at h <;> simp only [List.mem_append, List.mem_singleton] at h
    · rcases h with ((h1 | h1) | h1) | h1
      · exact Or.inl h1
      · subst h1; exact Or.inr (Or.inl rfl)
      · exact Or.inr (Or.inr (hrem op h1))
      · subst h1; exact Or.inr (Or.inl rfl)
    · rcases h with (h1 | h1) | h1
      · exact Or.inl h1
      · subst h1; exact Or.inr (Or.inl rfl)
      · exact Or.inr (Or.inr (hrem op h1))
  · exact Or.inr (Or.inr ⟨x, hx1, hx2, hx3⟩)

/-! ## Claim C4 -/

/-- C4: findZoneForDomain returns the zone ID of the longest matching
configured suffix (matching = equality or ".suffix" at the end); with no
matching suffix it returns "" and SyncDomains then makes no remote call about
that domain; zones {net → Z1, homelab.net → Z2} route app.homelab.net to Z2.
The hypothesis that configured suffixes are non-empty reflects the config
parser, which drops cf_zone entries with an empty domain or zone ID. -/
theorem C4_longest_suffix_zone (zones : List CloudflareZone) (domain : String)
    (hz : ∀ z ∈ zones, z.Domain ≠ "") :
    ((∀ z ∈ zones, zoneMatches domain z = false) → findZoneForDomain zones domain = "")
    ∧ ((∃ z0 ∈ zones, zoneMatches domain z0 = true) →
        ∃ z ∈ zones, zoneMatches domain z = true
          ∧ findZoneForDomain zones domain = z.ZoneID
          ∧ ∀ z' ∈ zones, zoneMatches domain z' = true → z'.Domain.length ≤ z.Domain.length)
    ∧ findZoneForDomain
        [{ Domain := "net", ZoneID := "Z1" }, { Domain := "homelab.net", ZoneID := "Z2" }]
        "app.homelab.net" = "Z2"
    ∧ (∀ (cfg : CloudflareConfig) (s : CFState) (ds : List String) (d : String),
        (∀ z ∈ cfg.Zones, zoneMatches d z = false) →
        ∀ op ∈ (SyncDomains cfg s ds).log, op ∈ s.log ∨ d ∉ op.subjects) := by
  refine ⟨?_, ?_, by decide, ?_⟩
  · intro hall
    rcases findZoneLoop_spec domain zones ("", "") with ⟨heq, _⟩ | ⟨w, hw, hwm, _⟩
    · unfold findZoneForDomain
      rw [heq]
    · exact absurd hwm (by simp [hall w hw])
  · rintro ⟨z0, hz0, hz0m⟩
    rcases findZoneLoop_spec domain zones ("", "")
      with ⟨_, hall⟩ | ⟨w, hw, hwm, hweq, _, hwall⟩
    · have hle := hall z0 hz0 hz0m
      have hpos := stringLengthPos z0.Domain (hz z0 hz0)
      simp at hle
      omega
    · refine ⟨w, hw, hwm, ?_, hwall⟩
      unfold findZoneForDomain
      rw [hweq]
  · intro cfg s ds d hnom op hop
    rcases SyncDomains_log cfg ds s op hop with h | ⟨x, hx1, hx2, hx3, hx4⟩
    · exact Or.inl h
    · right
      rw [hx1]
      intro hd
      rcases List.mem_singleton.mp hd with rfl
      rcases findZoneLoop_spec d cfg.Zones ("", "") with ⟨heq, _⟩ | ⟨w, hw, hwm, _⟩
      · refine hx4 ?_
        unfold findZoneForDomain
        rw [heq]
      · exact absurd hwm (by simp [hnom w hw])

/-- Witness for C4: a domain outside every configured zone yields "". -/
theorem C4_witness : findZoneForDomain cfCfg.Zones "example.org" = "" :=
  (C4_longest_suffix_zone cfCfg.Zones "example.org" (by decide)).1 (by decide)

/-! ## Claim C8 -/

/-- C8: a name in the configured exclusion set is never the subject of any new
remote-provider call (list, create, update, delete, tunnel ingress
insertion/update/removal) made by SyncDomains, RemoveDomains, AddRoutes or
RemoveRoutes. -/
theorem C8_excluded_untouched (cfg : CloudflareConfig) (s : CFState)
    (names : List String) (tid svc e : String)
    (he : excluded cfg e = true) :
    (∀ op ∈ (SyncDomains cfg s names).log, op ∈ s.log ∨ e ∉ op.subjects)
    ∧ (∀ op ∈ (RemoveDomains cfg s names).log, op ∈ s.log ∨ e ∉ op.subjects)
    ∧ (∀ op ∈ (AddRoutes cfg tid s names svc).log, op ∈ s.log ∨ e ∉ op.subjects)
    ∧ (∀ op ∈ (RemoveRoutes cfg s names).log, op ∈ s.log ∨ e ∉ op.subjects) := by
  have hnot : ∀ (x : String), excluded cfg x = false → e ∉ [x] := by
    intro x hx hmem
    rcases List.mem_singleton.mp hmem with rfl
    rw [he] at hx
    cases hx
  refine ⟨?_, ?_, ?_, ?_⟩
  · intro op hop
    rcases SyncDomains_log cfg names s op hop with h | ⟨x, hx1, _, hx3, _⟩
    · exact Or.inl h
    · exact Or.inr (hx1 ▸ hnot x hx3)
  · intro op hop
    rcases RemoveDomains_log cfg names s op hop with h | ⟨x, hx1, _, hx3, _⟩
    · exact Or.inl h
    · exact Or.inr (hx1 ▸ hnot x hx3)
  · intro op hop
    rcases AddRoutes_log cfg tid s names svc op hop with h | h0 | ⟨x, hx1, _, hx3⟩
    · exact Or.inl h
    · exact Or.inr (by rw [h0]; exact List.not_mem_nil e)
    · exact Or.inr (hx1 ▸ hnot x hx3)
  · intro op hop
    rcases RemoveRoutes_log cfg s names op hop with h | h0 | ⟨x, hx1, _, hx3⟩
    · exact Or.inl h
    · exact Or.inr (by rw [h0]; exact List.not_mem_nil e)
    · exact Or.inr (hx1 ▸ hnot x hx3)

/-- Witness for C8: with "secret.homelab.net" excluded, the listing call made
for the other name is not about the excluded name. -/
theorem C8_witness :
    CFOp.listRecords "zone1" "CNAME" "app.homelab.net" ∈ cfStart.log
      ∨ "secret.homelab.net" ∉ (CFOp.listRecords "zone1" "CNAME" "app.homelab.net").subjects :=
  (C8_excluded_untouched c8Cfg cfStart ["secret.homelab.net", "app.homelab.net"]
      "tid" "svc" "secret.homelab.net" (by decide)).1
    (CFOp.listRecords "zone1" "CNAME" "app.homelab.net") (by decide)

/-! ## Ingress-list lemmas (claims C5, C6) -/

theorem upsertTunnelDNS_ingress (cfg : CloudflareConfig) (s : CFState) (h t : String) :
    (upsertTunnelDNS cfg s h t).ingress = s.ingress := by
  simp only [upsertTunnelDNS, listDNSRecords]
  split
  · rfl
  · rcases hE : List.filter (recMatches (findZoneForDomain cfg.Zones h) "CNAME" h) s.records
      with _ | ⟨rec, restR⟩ <;> dsimp only
    · rfl
    · split <;> rfl

theorem deleteDNSRecordFold_ingress (z : String) :
    ∀ (recs : List DNSRecord) (s0 : CFState),
      (recs.foldl (fun s rec => deleteDNSRecord s z rec.recID rec.name) s0).ingress
        = s0.ingress := by
  intro recs
  induction recs with
  | nil => intro s0; rfl
  | cons r rest ih =>
    intro s0
    rw [List.foldl_cons, ih]
    rfl

theorem deleteTunnelDNS_ingress (cfg : CloudflareConfig) (s : CFState) (h : String) :
    (deleteTunnelDNS cfg s h).ingress = s.ingress := by
  simp only [deleteTunnelDNS, listDNSRecords]
  split
  · rfl
  · rw [deleteDNSRecordFold_ingress]

theorem tunnelUpsertFold_ingress (cfg : CloudflareConfig) (t : String) :
    ∀ (hostnames : List String) (s0 : CFState),
      (hostnames.foldl
        (fun s h => if excluded cfg h then s else upsertTunnelDNS cfg s h t) s0).ingress
      = s0.ingress := by
  intro hostnames
  induction hostnames with
  | nil => intro s0; rfl
  | cons hn rest ih =>
    intro s0
    rw [List.foldl_cons, ih]
    by_cases he : excluded cfg hn = true
    · rw [if_pos he]
    · rw [if_neg he, upsertTunnelDNS_ingress]

theorem tunnelDeleteFold_ingress (cfg : CloudflareConfig) :
    ∀ (hostnames : List String) (s0 : CFState),
      (hostnames.foldl
        (fun s h => if excluded cfg h then s else deleteTunnelDNS cfg s h) s0).ingress
      = s0.ingress := by
  intro hostnames
  induction hostnames with
  | nil => intro s0; rfl
  | cons hn rest ih =>
    intro s0
    rw [List.foldl_cons, ih]
    by_cases he : excluded cfg hn = true
    · rw [if_pos he]
    · rw [if_neg he, deleteTunnelDNS_ingress]

theorem AddRoutes_ingress (cfg : CloudflareConfig) (tid : String) (s : CFState)
    (hostnames : List String) (svc : String) :
    (AddRoutes cfg tid s hostnames svc).ingress =
      (if (hostnames.foldl (addRoutesStep cfg svc)
            { ingress := s.ingress, modified := false, ops := [] }).modified
       then (hostnames.foldl (addRoutesStep cfg svc)
            { ingress := s.ingress, modified := false, ops := [] }).ingress
       else s.ingress) := by
  simp only [AddRoutes]
  rw [tunnelUpsertFold_ingress]
  split <;> rfl

theorem RemoveRoutes_ingress (cfg : CloudflareConfig) (s : CFState) (hostnames : List String) :
    (RemoveRoutes cfg s hostnames).ingress =
      (if s.ingress.any
            (fun rule => (hostnames.filter (fun hh => !(excluded cfg hh))).contains rule.Hostname)
       then s.ingress.filter
            (fun rule => !((hostnames.filter (fun hh => !(excluded cfg hh))).contains rule.Hostname))
       else s.ingress) := by
  simp only [RemoveRoutes]
  rw [tunnelDeleteFold_ingress]
  split <;> rfl

theorem updateIngressRule_none (h svc : String) :
    ∀ l : List IngressRule, (∀ rule ∈ l, (rule.Hostname == h) = false) →
      updateIngressRule h svc l = none := by
  intro l
  induction l with
  | nil => intro _; rfl
  | cons r rest ih =>
    intro hall
    rw [updateIngressRule, hall r (List.mem_cons_self r rest)]
    simp only [Bool.false_eq_true, if_false]
    rw [ih (fun x hx => hall x (List.mem_cons_of_mem r hx))]

theorem getLastD_concat_rule (a d : IngressRule) :
    ∀ l : List IngressRule, (l ++ [a]).getLastD d = a := by
  intro l
  induction l generalizing d with
  | nil => rfl
  | cons x xs ih => rw [List.cons_append, List.getLastD_cons, ih]

theorem insertBeforeLast_concat (front : List IngressRule) (lastRule newRule : IngressRule) :
    insertBeforeLast (front ++ [lastRule]) newRule = front ++ [newRule, lastRule] := by
  rcases hF : front ++ [lastRule] with _ | ⟨a, l⟩
  · exact absurd hF (by simp)
  · simp only [insertBeforeLast]
    rw [← hF, List.dropLast_concat, getLastD_concat_rule]

theorem updateIngressRule_invariant (h svc : String) (hne : h ≠ "") :
    ∀ (front : List IngressRule) (lastRule : IngressRule) (l' : List IngressRule) (c : Bool),
      (∀ r ∈ front, r.Hostname ≠ "") → lastRule.Hostname = "" →
      updateIngressRule h svc (front ++ [lastRule]) = some (l', c) →
      ∃ front', l' = front' ++ [lastRule] ∧ ∀ r ∈ front', r.Hostname ≠ "" := by
  intro front
  induction front with
  | nil =>
    intro lastRule l' c _ hlast hup
    rw [List.nil_append, updateIngressRule] at hup
    have hfalse : (lastRule.Hostname == h) = false := by
      rw [hlast]
      exact beq_eq_false_iff_ne.mpr (Ne.symm hne)
    rw [hfalse] at hup
    simp only [Bool.false_eq_true, if_false] at hup
    rw [updateIngressRule] at hup
    cases hup
  | cons r rest ih =>
    intro lastRule l' c hfront hlast hup
    rw [List.cons_append, updateIngressRule] at hup
    split at hup
    · split at hup
      · cases hup
        refine ⟨r :: rest, by rw [List.cons_append], hfront⟩
      · cases hup
        refine ⟨{ r with Service := svc } :: rest, by rw [List.cons_append], ?_⟩
        intro x hx
        rcases List.mem_cons.mp hx with rfl | hx2
        · exact hfront r (List.mem_cons_self r rest)
        · exact hfront x (List.mem_cons_of_mem r hx2)
    · rcases hrec : updateIngressRule h svc (rest ++ [lastRule]) with _ | ⟨rest2, c2⟩ <;>
        rw [hrec] at hup
      · cases hup
      · dsimp only at hup
        rcases ih lastRule rest2 c2 (fun x hx => hfront x (List.mem_cons_of_mem r hx))
          hlast hrec with ⟨front', hf1, hf2⟩
        have hl : l' = r :: rest2 := by
          have h2 := Option.some.inj hup
          exact (congrArg Prod.fst h2).symm
        refine ⟨r :: front', by rw [hl, hf1, List.cons_append], ?_⟩
        intro x hx
        rcases List.mem_cons.mp hx with hxr | hx2
        · rw [hxr]
          exact hfront r (List.mem_cons_self r rest)
        · exact hf2 x hx2

theorem addLoop_invariant (cfg : CloudflareConfig) (svc : String) :
    ∀ hostnames : List String, (∀ h ∈ hostnames, h ≠ "") →
      ∀ st : AddLoop, catchAllInvariant st.ingress →
        catchAllInvariant ((hostnames.foldl (addRoutesStep cfg svc) st).ingress) := by
  intro hostnames
  induction hostnames with
  | nil => intro _ st hst; exact hst
  | cons hn rest ih =>
    intro hall st hst
    rw [List.foldl_cons]
    refine ih (fun x hx => hall x (List.mem_cons_of_mem hn hx)) _ ?_
    by_cases he : excluded cfg hn = true
    · rw [addRoutesStep, if_pos he]
      exact hst
    · rw [addRoutesStep, if_neg he]
      rcases hst with ⟨front, lastRule, hEq, hlastR, hfront⟩
      have hn_ne : hn ≠ "" := hall hn (List.mem_cons_self hn rest)
      rcases hU : updateIngressRule hn svc st.ingress with _ | ⟨ing2, changed⟩
      · dsimp only
        rw [hEq, insertBeforeLast_concat]
        refine ⟨front ++ [{ Hostname := hn, Service := svc }], lastRule,
          by simp, hlastR, ?_⟩
        intro x hx
        rcases List.mem_append.mp hx with hx2 | hx2
        · exact hfront x hx2
        · rcases List.mem_singleton.mp hx2 with rfl
          exact hn_ne
      · rw [hEq] at hU
        rcases updateIngressRule_invariant hn svc hn_ne front lastRule ing2 changed
          hfront hlastR hU with ⟨front', hf1, hf2⟩
        dsimp only
        split
        · exact ⟨front', lastRule, hf1, hlastR, hf2⟩
        · exact ⟨front', lastRule, hf1, hlastR, hf2⟩

/-! ## Claim C5 -/

/-- C5: AddRoutes inserts an absent non-excluded hostname immediately before
the last rule (the catch-all), or appends the rule plus a synthesized
catch-all when the fetched list is empty; on a tunnel seeded with only a
catch-all, adding two hostnames yields exactly the three rules with the
catch-all last, and repeating the identical call leaves the rule list
unchanged and pushes no configuration update (its log grows only by the GET). -/
theorem C5_insert_before_catchall (cfg : CloudflareConfig) (tid : String) (s : CFState)
    (h svc : String)
    (hex : excluded cfg h = false)
    (habs : ∀ rule ∈ s.ingress, (rule.Hostname == h) = false) :
    (s.ingress ≠ [] → (AddRoutes cfg tid s [h] svc).ingress
        = s.ingress.dropLast
            ++ [{ Hostname := h, Service := svc }, s.ingress.getLastD catchAllRule])
    ∧ (s.ingress = [] → (AddRoutes cfg tid s [h] svc).ingress
        = [{ Hostname := h, Service := svc }, catchAllRule])
    ∧ tunnelAfterAdd.ingress =
        [{ Hostname := "app.homelab.net", Service := "http://traefik:80" },
         { Hostname := "git.homelab.net", Service := "http://traefik:80" }, catchAllRule]
    ∧ tunnelAfterAddTwice.ingress = tunnelAfterAdd.ingress
    ∧ tunnelAfterAddTwice.log = tunnelAfterAdd.log ++ [CFOp.getTunnelConfig] := by
  have hneg : ¬(excluded cfg h = true) := by simp [hex]
  have hstv : ([h].foldl (addRoutesStep cfg svc)
      { ingress := s.ingress, modified := false, ops := [] }) =
      { ingress := insertBeforeLast s.ingress { Hostname := h, Service := svc }
        modified := true, ops := [CFOp.ingressInsert h] } := by
    rw [List.foldl_cons, List.foldl_nil, addRoutesStep, if_neg hneg,
      updateIngressRule_none h svc s.ingress habs]
    rfl
  have hstep : (AddRoutes cfg tid s [h] svc).ingress =
      insertBeforeLast s.ingress { Hostname := h, Service := svc } := by
    rw [AddRoutes_ingress, hstv]
    rfl
  refine ⟨?_, ?_, by decide, by decide, by decide⟩
  · intro hne
    rw [hstep]
    rcases hI : s.ingress with _ | ⟨a, l⟩
    · exact absurd hI hne
    · simp only [insertBeforeLast]
  · intro hnil
    rw [hstep, hnil]
    rfl

/-- Witness for C5 on the concrete seeded tunnel. -/
theorem C5_witness :
    (AddRoutes tunnelCfg "tid" tunnelStart ["x.loc"] "svc").ingress
      = tunnelStart.ingress.dropLast
          ++ [{ Hostname := "x.loc", Service := "svc" }, tunnelStart.ingress.getLastD catchAllRule] :=
  (C5_insert_before_catchall tunnelCfg "tid" tunnelStart "x.loc" "svc"
    (by decide) (by decide)).1 (by decide)

/-! ## Claim C6 (corrected) -/

/-- C6 counterexample: RemoveRoutes called with a name equal to the
catch-all's empty hostname DOES remove the catch-all rule — the filter matches
the empty hostname like any other — leaving an empty ingress list, refuting
the claimed invariant. -/
theorem C6_counterexample :
    (RemoveRoutes tunnelCfg tunnelStart [""]).ingress = [] := by decide

/-- C6 amended: provided no input name is the empty string, AddRoutes and
RemoveRoutes preserve the invariant that the ingress list is a front segment
without empty hostnames followed by exactly one catch-all rule in last
position; RemoveRoutes's name filter spares the catch-all and AddRoutes
inserts (or updates) only in the front segment. -/
theorem C6_amended_catchall (cfg : CloudflareConfig) (s : CFState) (names : List String)
    (tid svc : String)
    (hinv : catchAllInvariant s.ingress) (hne : "" ∉ names) :
    catchAllInvariant (AddRoutes cfg tid s names svc).ingress
    ∧ catchAllInvariant (RemoveRoutes cfg s names).ingress := by
  have hnames : ∀ x ∈ names, x ≠ "" := by
    intro x hx hx0
    exact hne (hx0 ▸ hx)
  constructor
  · rw [AddRoutes_ingress]
    split
    · exact addLoop_invariant cfg svc names hnames _ hinv
    · exact hinv
  · rw [RemoveRoutes_ingress]
    split
    · rcases hinv with ⟨front, lastRule, hEq, hlast, hfront⟩
      rw [hEq, List.filter_append]
      have hp : ((names.filter (fun hh => !(excluded cfg hh))).contains lastRule.Hostname)
          = false := by
        rw [hlast]
        cases hcb : (names.filter (fun hh => !(excluded cfg hh))).contains "" with
        | false => rfl
        | true =>
          have hmem : ("" : String) ∈ names.filter (fun hh => !(excluded cfg hh)) := by
            simpa [List.contains] using hcb
          exact absurd (List.mem_filter.mp hmem).1 hne
      have hfl : List.filter
          (fun rule => !((names.filter (fun hh => !(excluded cfg hh))).contains rule.Hostname))
          [lastRule] = [lastRule] := by
        simp only [List.filter_cons, hp, Bool.not_false]
        rfl
      rw [hfl]
      exact ⟨List.filter _ front, lastRule, rfl, hlast,
        fun r hr => hfront r (List.mem_filter.mp hr).1⟩
    · exact hinv

/-- Witness for the amended C6 on the concrete seeded tunnel. -/
theorem C6_amended_witness :
    catchAllInvariant (AddRoutes tunnelCfg "tid" tunnelStart ["app.homelab.net"] "svc").ingress
    ∧ catchAllInvariant (RemoveRoutes tunnelCfg tunnelStart ["app.homelab.net"]).ingress :=
  C6_amended_catchall tunnelCfg tunnelStart ["app.homelab.net"] "tid" "svc"
    ⟨[], catchAllRule, rfl, rfl, by simp⟩ (by decide)

/-! ## Record-state lemmas (claim C3) -/

theorem cnameRecords_ext (s1 s2 : CFState) (hrec : s1.records = s2.records) (z d : String) :
    cnameRecords s1 z d = cnameRecords s2 z d := by
  unfold cnameRecords
  rw [hrec]

theorem filter_decomp {α : Type} (p : α → Bool) :
    ∀ (l : List α) (rec : α) (rest : List α), l.filter p = rec :: rest →
      ∃ l₁ l₂, l = l₁ ++ rec :: l₂ ∧ (∀ x ∈ l₁, p x = false)
        ∧ l₂.filter p = rest ∧ p rec = true := by
  intro l
  induction l with
  | nil => intro rec rest h; cases h
  | cons a l ih =>
    intro rec rest h
    rw [List.filter_cons] at h
    by_cases hpa : p a = true
    · rw [if_pos hpa] at h
      injection h with h1 h2
      subst h1
      exact ⟨[], l, rfl, by simp, h2, hpa⟩
    · rw [if_neg hpa] at h
      rcases ih rec rest h with ⟨l₁, l₂, hl, hl1, hl2, hpr⟩
      refine ⟨a :: l₁, l₂, by rw [hl, List.cons_append], ?_, hl2, hpr⟩
      intro x hx
      rcases List.mem_cons.mp hx with hxa | hx2
      · rw [hxa]
        revert hpa
        cases p a <;> simp
      · exact hl1 x hx2

theorem updateFirst_skip (z : String) (i : Nat) (r : DNSRecord) :
    ∀ l₁ : List DNSRecord, (∀ x ∈ l₁, (x.zone == z && x.recID == i) = false) →
      ∀ l₂, updateFirst (l₁ ++ l₂) z i r = l₁ ++ updateFirst l₂ z i r := by
  intro l₁
  induction l₁ with
  | nil => intro _ l₂; rfl
  | cons a l ih =>
    intro hall l₂
    rw [List.cons_append, updateFirst,
      if_neg (by rw [hall a (List.mem_cons_self a l)]; exact Bool.false_ne_true),
      ih (fun x hx => hall x (List.mem_cons_of_mem a hx)) l₂, List.cons_append]

theorem updateFirst_here (z : String) (i : Nat) (r rec : DNSRecord)
    (hz : rec.zone = z) (hi : rec.recID = i) (l₂ : List DNSRecord) :
    updateFirst (rec :: l₂) z i r = { r with recID := i, zone := z } :: l₂ := by
  rw [updateFirst, if_pos (by rw [hz, hi]; simp)]

theorem upsertRecord_spec (cfg : CloudflareConfig) (s : CFState) (z d : String)
    (hwf : WFRecords s) :
    WFRecords (upsertRecord cfg s z d)
    ∧ (cnameRecords (upsertRecord cfg s z d) z d).length = max 1 (cnameRecords s z d).length
    ∧ ((cnameRecords (upsertRecord cfg s z d) z d).head?.map (fun r => r.content))
        = some cfg.TargetDomain
    ∧ (∀ z' d', ¬(z' = z ∧ d' = d) →
        cnameRecords (upsertRecord cfg s z d) z' d' = cnameRecords s z' d')
    ∧ (cnameRecords s z d ≠ [] →
        ((cnameRecords (upsertRecord cfg s z d) z d).head?.map (fun r => r.recID))
          = ((cnameRecords s z d).head?.map (fun r => r.recID)))
    ∧ ((cnameRecords s z d).head?.map (fun r => r.content) = some cfg.TargetDomain →
        upsertRecord cfg s z d = { s with log := s.log ++ [CFOp.listRecords z "CNAME" d] }) := by
  rcases hE : List.filter (recMatches z "CNAME" d) s.records with _ | ⟨rec, restE⟩
  · -- no existing record: create
    have hup : upsertRecord cfg s z d =
        { s with
          records := s.records ++
            [{ recID := s.nextID, zone := z, rtype := "CNAME", name := d
               content := cfg.TargetDomain, proxied := cfg.Proxied }]
          nextID := s.nextID + 1
          log := (s.log ++ [CFOp.listRecords z "CNAME" d]) ++
            [CFOp.createRecord z
              { recID := s.nextID, zone := z, rtype := "CNAME", name := d
                content := cfg.TargetDomain, proxied := cfg.Proxied }] } := by
      simp only [upsertRecord, listDNSRecords, createDNSRecord]
      rw [hE]
    have hcnE : cnameRecords s z d = [] := hE
    have hmatch : recMatches z "CNAME" d
        { recID := s.nextID, zone := z, rtype := "CNAME", name := d
          content := cfg.TargetDomain, proxied := cfg.Proxied } = true := by
      simp [recMatches]
    have hcn' : cnameRecords (upsertRecord cfg s z d) z d =
        [{ recID := s.nextID, zone := z, rtype := "CNAME", name := d
           content := cfg.TargetDomain, proxied := cfg.Proxied }] := by
      show List.filter _ _ = _
      rw [hup]
      show List.filter _ (s.records ++ _) = _
      rw [List.filter_append, hE, List.filter_cons, if_pos hmatch]
      rfl
    refine ⟨?_, ?_, ?_, ?_, ?_, ?_⟩
    · rw [hup]
      refine ⟨?_, ?_⟩
      · show ((s.records ++ [({ recID := s.nextID, zone := z, rtype := "CNAME", name := d, content := cfg.TargetDomain, proxied := cfg.Proxied } : DNSRecord)]).map (fun r => r.recID)).Nodup
        rw [List.map_append]
        refine List.Nodup.append hwf.1 (List.nodup_singleton _) ?_
        intro a ha hb
        rcases List.mem_map.mp ha with ⟨r, hr, hra⟩
        have hb2 : a = s.nextID := by simpa using hb
        have hra2 : r.recID = a := hra
        have h1 : r.recID < s.nextID := hwf.2 r hr
        omega
      · show ∀ r ∈ s.records ++ [({ recID := s.nextID, zone := z, rtype := "CNAME", name := d, content := cfg.TargetDomain, proxied := cfg.Proxied } : DNSRecord)], r.recID < s.nextID + 1
        intro r hr
        rcases List.mem_append.mp hr with h1 | h1
        · have := hwf.2 r h1
          omega
        · rcases List.mem_singleton.mp h1 with rfl
          show s.nextID < s.nextID + 1
          omega
    · rw [hcn', hcnE]
      show 1 = max 1 0
      rw [Nat.max_eq_left (Nat.zero_le 1)]
    · rw [hcn']
      rfl
    · intro z' d' hzd
      have hfail : recMatches z' "CNAME" d'
          { recID := s.nextID, zone := z, rtype := "CNAME", name := d
            content := cfg.TargetDomain, proxied := cfg.Proxied } = false := by
        by_cases hz' : z' = z
        · have hd' : d' ≠ d := fun hd => hzd ⟨hz', hd⟩
          simp [recMatches, hz', Ne.symm hd']
        · have hzz : z ≠ z' := fun h => hz' h.symm
          simp [recMatches, hzz]
      show List.filter _ _ = List.filter _ _
      rw [hup]
      show List.filter _ (s.records ++ _) = _
      rw [List.filter_append, List.filter_cons,
        if_neg (by rw [hfail]; exact Bool.false_ne_true)]
      simp
    · intro hne
      exact absurd hcnE hne
    · intro hcon
      rw [hcnE] at hcon
      cases hcon
  · -- an existing record was listed first
    have hcnE : cnameRecords s z d = rec :: restE := hE
    rcases filter_decomp (recMatches z "CNAME" d) s.records rec restE hE
      with ⟨l₁, l₂, hL, hl₁, hl₂, hprec⟩
    have hprec' := hprec
    simp only [recMatches, Bool.and_eq_true, beq_iff_eq] at hprec'
    have hzrec : rec.zone = z := hprec'.1.1
    have hnrec : rec.name = d := hprec'.2
    have hfailrec : ∀ z' d', ¬(z' = z ∧ d' = d) → recMatches z' "CNAME" d' rec = false := by
      intro z' d' hzd
      by_cases hz' : z' = z
      · have hd' : d' ≠ d := fun hd => hzd ⟨hz', hd⟩
        simp [recMatches, hz', hzrec, hnrec, Ne.symm hd']
      · have hzz : z ≠ z' := fun h => hz' h.symm
        simp [recMatches, hzrec, hzz]
    by_cases hc : (rec.content == cfg.TargetDomain) = true
    · -- first record already has the target content: no write
      have hup : upsertRecord cfg s z d =
          { s with log := s.log ++ [CFOp.listRecords z "CNAME" d] } := by
        simp only [upsertRecord, listDNSRecords]
        rw [hE]
        dsimp only
        rw [if_pos hc]
      have hext : ∀ z' d', cnameRecords (upsertRecord cfg s z d) z' d' = cnameRecords s z' d' := by
        intro z' d'
        refine cnameRecords_ext _ _ ?_ z' d'
        rw [hup]
      refine ⟨?_, ?_, ?_, ?_, ?_, ?_⟩
      · rw [hup]
        exact hwf
      · rw [hext, hcnE]
        show restE.length + 1 = max 1 (restE.length + 1)
        rw [Nat.max_eq_right]
        omega
      · rw [hext, hcnE]
        show some rec.content = some cfg.TargetDomain
        rw [eq_of_beq hc]
      · intro z' d' _
        exact hext z' d'
      · intro _
        rw [hext]
      · intro _
        exact hup
    · -- content differs: update in place
      have hup : upsertRecord cfg s z d =
          updateDNSRecord { s with log := s.log ++ [CFOp.listRecords z "CNAME" d] } z rec.recID
            { recID := 0, zone := z, rtype := "CNAME", name := d
              content := cfg.TargetDomain, proxied := cfg.Proxied } := by
        simp only [upsertRecord, listDNSRecords]
        rw [hE]
        dsimp only
        rw [if_neg hc]
      have hnd := hwf.1
      rw [hL, List.map_append, List.map_cons] at hnd
      have hdisj := (List.nodup_append.mp hnd).2.2
      have hids : ∀ x ∈ l₁, (x.zone == z && x.recID == rec.recID) = false := by
        intro x hx
        cases hxi : (x.recID == rec.recID) with
        | true =>
          exfalso
          have hxid : x.recID = rec.recID := eq_of_beq hxi
          have hmem1 : rec.recID ∈ l₁.map (fun r => r.recID) :=
            hxid ▸ List.mem_map.mpr ⟨x, hx, rfl⟩
          exact hdisj hmem1 (List.mem_cons_self _ _)
        | false => rw [Bool.and_false]
      have hrecords : (upsertRecord cfg s z d).records =
          l₁ ++ ({ recID := rec.recID, zone := z, rtype := "CNAME", name := d
                   content := cfg.TargetDomain, proxied := cfg.Proxied } :: l₂) := by
        rw [hup]
        show updateFirst s.records z rec.recID _ = _
        rw [hL, updateFirst_skip z rec.recID _ l₁ hids (rec :: l₂),
          updateFirst_here z rec.recID _ rec hzrec rfl l₂]
      have hnext : (upsertRecord cfg s z d).nextID = s.nextID := by
        rw [hup]
        rfl
      have hmatch : recMatches z "CNAME" d
          { recID := rec.recID, zone := z, rtype := "CNAME", name := d
            content := cfg.TargetDomain, proxied := cfg.Proxied } = true := by
        simp [recMatches]
      have hfl₁ : List.filter (recMatches z "CNAME" d) l₁ = [] := by
        rw [List.filter_eq_nil_iff]
        intro x hx
        rw [hl₁ x hx]
        exact Bool.false_ne_true
      have hcn' : cnameRecords (upsertRecord cfg s z d) z d =
          { recID := rec.recID, zone := z, rtype := "CNAME", name := d
            content := cfg.TargetDomain, proxied := cfg.Proxied } :: restE := by
        show List.filter _ _ = _
        rw [hrecords, List.filter_append, hfl₁, List.filter_cons, if_pos hmatch, hl₂]
        rfl
      refine ⟨?_, ?_, ?_, ?_, ?_, ?_⟩
      · refine ⟨?_, ?_⟩
        · show ((upsertRecord cfg s z d).records.map (fun r => r.recID)).Nodup
          rw [hrecords, List.map_append, List.map_cons]
          exact hnd
        · intro r hr
          rw [hrecords] at hr
          rw [hnext]
          rcases List.mem_append.mp hr with h1 | h1
          · refine hwf.2 r ?_
            rw [hL]
            exact List.mem_append.mpr (Or.inl h1)
          · rcases List.mem_cons.mp h1 with h2 | h2
            · rw [h2]
              show rec.recID < s.nextID
              refine hwf.2 rec ?_
              rw [hL]
              exact List.mem_append.mpr (Or.inr (List.mem_cons_self _ _))
            · refine hwf.2 r ?_
              rw [hL]
              exact List.mem_append.mpr (Or.inr (List.mem_cons_of_mem _ h2))
      · rw [hcn', hcnE]
        show restE.length + 1 = max 1 (restE.length + 1)
        rw [Nat.max_eq_right]
        omega
      · rw [hcn']
        rfl
      · intro z' d' hzd
        have hfail2 : recMatches z' "CNAME" d'
            { recID := rec.recID, zone := z, rtype := "CNAME", name := d
              content := cfg.TargetDomain, proxied := cfg.Proxied } = false := by
          by_cases hz' : z' = z
          · have hd' : d' ≠ d := fun hd => hzd ⟨hz', hd⟩
            simp [recMatches, hz', Ne.symm hd']
          · have hzz : z ≠ z' := fun h => hz' h.symm
            simp [recMatches, hzz]
        show List.filter _ _ = List.filter _ _
        rw [hrecords, List.filter_append, List.filter_cons,
          if_neg (by rw [hfail2]; exact Bool.false_ne_true)]
        conv_rhs => rw [hL]
        rw [List.filter_append, List.filter_cons,
          if_neg (by rw [hfailrec z' d' hzd]; exact Bool.false_ne_true)]
      · intro _
        rw [hcn', hcnE]
        rfl
      · intro hcon
        rw [hcnE] at hcon
        have hceq : rec.content = cfg.TargetDomain := Option.some.inj hcon
        exact absurd (beq_iff_eq.mpr hceq) hc

theorem SyncDomains_spec (cfg : CloudflareConfig) (ds : List String) :
    ∀ s : CFState, WFRecords s →
      WFRecords (SyncDomains cfg s ds)
      ∧ (∀ z' d', ¬(d' ∈ ds ∧ relevant cfg d' = true ∧ z' = findZoneForDomain cfg.Zones d') →
          cnameRecords (SyncDomains cfg s ds) z' d' = cnameRecords s z' d')
      ∧ (∀ d ∈ ds, relevant cfg d = true →
          (cnameRecords (SyncDomains cfg s ds) (findZoneForDomain cfg.Zones d) d).length
            = max 1 (cnameRecords s (findZoneForDomain cfg.Zones d) d).length
          ∧ ((cnameRecords (SyncDomains cfg s ds) (findZoneForDomain cfg.Zones d) d).head?.map
              (fun r => r.content)) = some cfg.TargetDomain
          ∧ (cnameRecords s (findZoneForDomain cfg.Zones d) d ≠ [] →
              ((cnameRecords (SyncDomains cfg s ds) (findZoneForDomain cfg.Zones d) d).head?.map
                (fun r => r.recID))
                = ((cnameRecords s (findZoneForDomain cfg.Zones d) d).head?.map
                  (fun r => r.recID)))) := by
  induction ds with
  | nil =>
    intro s hwf
    exact ⟨hwf, fun z' d' _ => rfl, fun d hd => absurd hd (List.not_mem_nil d)⟩
  | cons d₀ rest ih =>
    intro s hwf
    by_cases he : excluded cfg d₀ = true
    · have hstep : SyncDomains cfg s (d₀ :: rest) = SyncDomains cfg s rest := by
        simp only [SyncDomains, List.foldl_cons]
        rw [if_pos he]
      have hrel0 : relevant cfg d₀ = false := by
        simp [relevant, he]
      rcases ih s hwf with ⟨ha, hb, hc2⟩
      rw [hstep]
      refine ⟨ha, ?_, ?_⟩
      · intro z' d' hcond
        refine hb z' d' ?_
        rintro ⟨hmem, hrel, hzone⟩
        exact hcond ⟨List.mem_cons_of_mem d₀ hmem, hrel, hzone⟩
      · intro d hd hrel
        rcases List.mem_cons.mp hd with hdd | hd2
        · rw [hdd, hrel0] at hrel
          cases hrel
        · exact hc2 d hd2 hrel
    · by_cases hz : (findZoneForDomain cfg.Zones d₀ == "") = true
      · have hstep : SyncDomains cfg s (d₀ :: rest) = SyncDomains cfg s rest := by
          simp only [SyncDomains, List.foldl_cons]
          rw [if_neg he, if_pos hz]
        have hzeq : findZoneForDomain cfg.Zones d₀ = "" := eq_of_beq hz
        have hrel0 : relevant cfg d₀ = false := by
          simp [relevant, hzeq]
        rcases ih s hwf with ⟨ha, hb, hc2⟩
        rw [hstep]
        refine ⟨ha, ?_, ?_⟩
        · intro z' d' hcond
          refine hb z' d' ?_
          rintro ⟨hmem, hrel, hzone⟩
          exact hcond ⟨List.mem_cons_of_mem d₀ hmem, hrel, hzone⟩
        · intro d hd hrel
          rcases List.mem_cons.mp hd with hdd | hd2
          · rw [hdd, hrel0] at hrel
            cases hrel
          · exact hc2 d hd2 hrel
      · -- active step: upsert d₀ in its zone, then recurse
        have hrel0 : relevant cfg d₀ = true := by
          have he' : excluded cfg d₀ = false := by
            revert he
            cases excluded cfg d₀ <;> simp
          have hzne : findZoneForDomain cfg.Zones d₀ ≠ "" :=
            fun h => hz (beq_iff_eq.mpr h)
          simp [relevant, he', hzne]
        have hstep : SyncDomains cfg s (d₀ :: rest) =
            SyncDomains cfg (upsertRecord cfg s (findZoneForDomain cfg.Zones d₀) d₀) rest := by
          simp only [SyncDomains, List.foldl_cons]
          rw [if_neg he, if_neg hz]
        rcases upsertRecord_spec cfg s (findZoneForDomain cfg.Zones d₀) d₀ hwf
          with ⟨u1, u2, u3, u4, u5, _⟩
        rcases ih (upsertRecord cfg s (findZoneForDomain cfg.Zones d₀) d₀) u1
          with ⟨ha, hb, hc2⟩
        rw [hstep]
        refine ⟨ha, ?_, ?_⟩
        · intro z' d' hcond
          have hnotrest : ¬(d' ∈ rest ∧ relevant cfg d' = true
              ∧ z' = findZoneForDomain cfg.Zones d') :=
            fun hq => hcond ⟨List.mem_cons_of_mem d₀ hq.1, hq.2.1, hq.2.2⟩
          rw [hb z' d' hnotrest]
          refine u4 z' d' ?_
          rintro ⟨hz1, hd1⟩
          refine hcond ⟨?_, ?_, ?_⟩
          · rw [hd1]
            exact List.mem_cons_self d₀ rest
          · rw [hd1]
            exact hrel0
          · rw [hz1, hd1]
        · intro d hd hrel
          by_cases hdrest : d ∈ rest
          · rcases hc2 d hdrest hrel with ⟨p1, p2, p3⟩
            by_cases hkey : d = d₀
            · refine ⟨?_, p2, ?_⟩
              · rw [p1, hkey, u2, ← max_assoc, max_self]
              · intro hne
                rw [hkey] at hne
                have hne₁ : cnameRecords
                    (upsertRecord cfg s (findZoneForDomain cfg.Zones d₀) d₀)
                    (findZoneForDomain cfg.Zones d₀) d₀ ≠ [] := by
                  intro h0
                  have hgt : 1 ≤ max 1 (cnameRecords s (findZoneForDomain cfg.Zones d₀)
                      d₀).length := le_max_left _ _
                  rw [← u2, h0] at hgt
                  simp at hgt
                have hp3 := p3
                rw [hkey] at hp3
                rw [hkey, hp3 hne₁, u5 hne]
            · have hkey2 : ¬(findZoneForDomain cfg.Zones d = findZoneForDomain cfg.Zones d₀
                  ∧ d = d₀) := fun hq => hkey hq.2
              have hs₁ : cnameRecords (upsertRecord cfg s (findZoneForDomain cfg.Zones d₀) d₀)
                  (findZoneForDomain cfg.Zones d) d
                  = cnameRecords s (findZoneForDomain cfg.Zones d) d := u4 _ _ hkey2
              refine ⟨?_, p2, ?_⟩
              · rw [p1, hs₁]
              · intro hne
                have hne₁ : cnameRecords
                    (upsertRecord cfg s (findZoneForDomain cfg.Zones d₀) d₀)
                    (findZoneForDomain cfg.Zones d) d ≠ [] := by
                  rw [hs₁]
                  exact hne
                rw [p3 hne₁, hs₁]
          · have hdd : d = d₀ := by
              rcases List.mem_cons.mp hd with h | h
              · exact h
              · exact absurd h hdrest
            have hfin : cnameRecords (SyncDomains cfg
                (upsertRecord cfg s (findZoneForDomain cfg.Zones d₀) d₀) rest)
                (findZoneForDomain cfg.Zones d) d
                = cnameRecords (upsertRecord cfg s (findZoneForDomain cfg.Zones d₀) d₀)
                  (findZoneForDomain cfg.Zones d) d :=
              hb _ _ (fun hq => hdrest hq.1)
            rw [hfin, hdd]
            exact ⟨u2, u3, u5⟩

theorem SyncDomains_noop (cfg : CloudflareConfig) (ds : List String) :
    ∀ s : CFState, WFRecords s →
      (∀ d ∈ ds, relevant cfg d = true →
        ((cnameRecords s (findZoneForDomain cfg.Zones d) d).head?.map (fun r => r.content))
          = some cfg.TargetDomain) →
      (SyncDomains cfg s ds).records = s.records
      ∧ (∀ op ∈ (SyncDomains cfg s ds).log,
          op ∈ s.log ∨ ∃ zz nn, op = CFOp.listRecords zz "CNAME" nn) := by
  induction ds with
  | nil =>
    intro s _ _
    exact ⟨rfl, fun op hop => Or.inl hop⟩
  | cons d₀ rest ih =>
    intro s hwf hhead
    by_cases he : excluded cfg d₀ = true
    · have hstep : SyncDomains cfg s (d₀ :: rest) = SyncDomains cfg s rest := by
        simp only [SyncDomains, List.foldl_cons]
        rw [if_pos he]
      rw [hstep]
      exact ih s hwf (fun d hd hrel => hhead d (List.mem_cons_of_mem d₀ hd) hrel)
    · by_cases hz : (findZoneForDomain cfg.Zones d₀ == "") = true
      · have hstep : SyncDomains cfg s (d₀ :: rest) = SyncDomains cfg s rest := by
          simp only [SyncDomains, List.foldl_cons]
          rw [if_neg he, if_pos hz]
        rw [hstep]
        exact ih s hwf (fun d hd hrel => hhead d (List.mem_cons_of_mem d₀ hd) hrel)
      · have hrel0 : relevant cfg d₀ = true := by
          have he' : excluded cfg d₀ = false := by
            revert he
            cases excluded cfg d₀ <;> simp
          have hzne : findZoneForDomain cfg.Zones d₀ ≠ "" :=
            fun h => hz (beq_iff_eq.mpr h)
          simp [relevant, he', hzne]
        have hupEq := (upsertRecord_spec cfg s (findZoneForDomain cfg.Zones d₀) d₀
          hwf).2.2.2.2.2 (hhead d₀ (List.mem_cons_self d₀ rest) hrel0)
        have hstep : SyncDomains cfg s (d₀ :: rest) =
            SyncDomains cfg
              { s with log := s.log ++
                  [CFOp.listRecords (findZoneForDomain cfg.Zones d₀) "CNAME" d₀] } rest := by
          simp only [SyncDomains, List.foldl_cons]
          rw [if_neg he, if_neg hz, hupEq]
        rw [hstep]
        have hwf' : WFRecords { s with log := s.log ++
            [CFOp.listRecords (findZoneForDomain cfg.Zones d₀) "CNAME" d₀] } := hwf
        have hhead' : ∀ d ∈ rest, relevant cfg d = true →
            ((cnameRecords { s with log := s.log ++
                [CFOp.listRecords (findZoneForDomain cfg.Zones d₀) "CNAME" d₀] }
              (findZoneForDomain cfg.Zones d) d).head?.map (fun r => r.content))
              = some cfg.TargetDomain := by
          intro d hd hrel
          exact hhead d (List.mem_cons_of_mem d₀ hd) hrel
        rcases ih _ hwf' hhead' with ⟨q1, q2⟩
        refine ⟨q1, ?_⟩
        intro op hop
        rcases q2 op hop with h | h
        · simp only [List.mem_append, List.mem_singleton] at h
          rcases h with h1 | h1
          · exact Or.inl h1
          · exact Or.inr ⟨findZoneForDomain cfg.Zones d₀, d₀, h1⟩
        · exact Or.inr h

/-! ## Claim C3 -/

/-- C3: SyncDomains performs an idempotent upsert per non-excluded,
zone-matched name.  Starting from a well-formed provider state holding at most
one CNAME record per such name: one call leaves exactly one record per name
with the configured target as content; a second identical call changes no
record and issues only read (list) calls; and after a target change the second
call updates the existing record in place — the per-name record count stays
one and the record keeps its ID while its content becomes the new target. -/
theorem C3_sync_idempotent_upsert (cfg : CloudflareConfig) (s : CFState) (ds : List String)
    (hwf : WFRecords s)
    (hclean : ∀ d ∈ ds, relevant cfg d = true →
      (cnameRecords s (findZoneForDomain cfg.Zones d) d).length ≤ 1) :
    (∀ d ∈ ds, relevant cfg d = true →
      (cnameRecords (SyncDomains cfg s ds) (findZoneForDomain cfg.Zones d) d).length = 1
      ∧ ((cnameRecords (SyncDomains cfg s ds) (findZoneForDomain cfg.Zones d) d).head?.map
          (fun r => r.content)) = some cfg.TargetDomain)
    ∧ (SyncDomains cfg (SyncDomains cfg s ds) ds).records = (SyncDomains cfg s ds).records
    ∧ (∀ op ∈ (SyncDomains cfg (SyncDomains cfg s ds) ds).log,
        op ∈ (SyncDomains cfg s ds).log ∨ ∃ zz nn, op = CFOp.listRecords zz "CNAME" nn)
    ∧ (∀ t' : String, ∀ d ∈ ds, relevant cfg d = true →
        (cnameRecords (SyncDomains { cfg with TargetDomain := t' } (SyncDomains cfg s ds) ds)
            (findZoneForDomain cfg.Zones d) d).length = 1
        ∧ ((cnameRecords (SyncDomains { cfg with TargetDomain := t' } (SyncDomains cfg s ds) ds)
            (findZoneForDomain cfg.Zones d) d).head?.map (fun r => r.content)) = some t'
        ∧ ((cnameRecords (SyncDomains { cfg with TargetDomain := t' } (SyncDomains cfg s ds) ds)
            (findZoneForDomain cfg.Zones d) d).head?.map (fun r => r.recID))
            = ((cnameRecords (SyncDomains cfg s ds) (findZoneForDomain cfg.Zones d) d).head?.map
              (fun r => r.recID))) := by
  rcases SyncDomains_spec cfg ds s hwf with ⟨w1, _, w3⟩
  have hone : ∀ d ∈ ds, relevant cfg d = true →
      (cnameRecords (SyncDomains cfg s ds) (findZoneForDomain cfg.Zones d) d).length = 1 := by
    intro d hd hrel
    rcases w3 d hd hrel with ⟨p1, _, _⟩
    rw [p1]
    exact max_eq_left (hclean d hd hrel)
  refine ⟨?_, ?_, ?_, ?_⟩
  · intro d hd hrel
    exact ⟨hone d hd hrel, (w3 d hd hrel).2.1⟩
  · exact (SyncDomains_noop cfg ds (SyncDomains cfg s ds) w1
      (fun d hd hrel => (w3 d hd hrel).2.1)).1
  · exact (SyncDomains_noop cfg ds (SyncDomains cfg s ds) w1
      (fun d hd hrel => (w3 d hd hrel).2.1)).2
  · intro t' d hd hrel
    have hrel' : relevant { cfg with TargetDomain := t' } d = true := hrel
    rcases SyncDomains_spec { cfg with TargetDomain := t' } ds (SyncDomains cfg s ds) w1
      with ⟨_, _, w3'⟩
    rcases w3' d hd hrel' with ⟨q1, q2, q3⟩
    have hq1 : (cnameRecords (SyncDomains { cfg with TargetDomain := t' }
        (SyncDomains cfg s ds) ds) (findZoneForDomain cfg.Zones d) d).length
        = max 1 (cnameRecords (SyncDomains cfg s ds)
          (findZoneForDomain cfg.Zones d) d).length := q1
    have hq2 : ((cnameRecords (SyncDomains { cfg with TargetDomain := t' }
        (SyncDomains cfg s ds) ds) (findZoneForDomain cfg.Zones d) d).head?.map
          (fun r => r.content)) = some t' := q2
    have hne1 : cnameRecords (SyncDomains cfg s ds) (findZoneForDomain cfg.Zones d) d ≠ [] := by
      intro h0
      have h1 := hone d hd hrel
      rw [h0] at h1
      simp at h1
    have hq3 : ((cnameRecords (SyncDomains { cfg with TargetDomain := t' }
        (SyncDomains cfg s ds) ds) (findZoneForDomain cfg.Zones d) d).head?.map
          (fun r => r.recID))
        = ((cnameRecords (SyncDomains cfg s ds) (findZoneForDomain cfg.Zones d) d).head?.map
          (fun r => r.recID)) := q3 hne1
    refine ⟨?_, hq2, hq3⟩
    rw [hq1, hone d hd hrel]
    exact max_self 1

/-- Witness for C3: syncing one name into an empty provider creates exactly
one record with the configured target. -/
theorem C3_witness :
    (cnameRecords (SyncDomains cfCfg cfStart ["app.homelab.net"])
        (findZoneForDomain cfCfg.Zones "app.homelab.net") "app.homelab.net").length = 1
    ∧ ((cnameRecords (SyncDomains cfCfg cfStart ["app.homelab.net"])
        (findZoneForDomain cfCfg.Zones "app.homelab.net") "app.homelab.net").head?.map
          (fun r => r.content)) = some "traefik.homelab.net" :=
  (C3_sync_idempotent_upsert cfCfg cfStart ["app.homelab.net"]
      ⟨List.nodup_nil, by intro r hr; cases hr⟩
      (by intro d hd hrel; rcases List.mem_singleton.mp hd with rfl; exact Nat.zero_le 1)).1
    "app.homelab.net" (List.mem_singleton.mpr rfl) (by decide)
